import Mathlib

/-!
Verification of the sdb/secdb market-data file format library.

The development shallowly embeds the byte-level codecs and the writer/reader
orchestration of the repository.  A file is a `List Nat` of byte values;
machine integers are `Nat`/`Int` with explicit reductions modulo `2 ^ 32` or
`% 256` where the C++ code relies on fixed-width arithmetic.  C `int`
division (truncation toward zero) is `Int.tdiv`/`Int.tmod`; the arithmetic
shift used by the signed LEB128 codec is floor division, which for the
positive divisor `128` coincides with Lean's `/` on `Int`.

Sources embedded here:
  - `src/src/sdb_fmt.cpp`, `src/src/secdb_fmt.cpp` (format codecs),
  - `src/include/secdb/secdb_fmt.hpp` / `.hxx` (sample codecs),
  - `src/include/secdb/secdb_fmt_io.hxx` (writer/reader orchestrator).
-/

/-! ## Little/big-endian 32-bit stores (utxx::store_le / store_be / get32le) -/

/-- Little-endian byte image of a 32-bit unsigned value (`utxx::store_le`). -/
def store_le32 (v : Nat) : List Nat :=
  [v % 256, v / 256 % 256, v / 65536 % 256, v / 16777216 % 256]

/-- Big-endian byte image of a 32-bit unsigned value (`utxx::store_be`). -/
def store_be32 (v : Nat) : List Nat :=
  [v / 16777216 % 256, v / 65536 % 256, v / 256 % 256, v % 256]

/-- Little-endian read of 32 bits from the head of a byte list
(`utxx::get32le` / `utxx::cast32le`). -/
def get32le (l : List Nat) : Nat :=
  l.getD 0 0 % 256 + 256 * (l.getD 1 0 % 256) + 65536 * (l.getD 2 0 % 256) +
    16777216 * (l.getD 3 0 % 256)

/-- Overwrite the bytes of `file` at position `pos` with `bs` (an `fwrite`
performed after seeking to `pos`, as done under a `Bookmark`). -/
def listPatch (file : List Nat) (pos : Nat) (bs : List Nat) : List Nat :=
  file.take pos ++ bs ++ file.drop (pos + bs.length)

/-- The stream-data magic marker `BEGIN_STREAM_DATA()` = `0xABBABABA`. -/
def BEGIN_STREAM_DATA : Nat := 0xABBABABA

/-! ## C1: StreamsMeta::WriteDataOffset and the data-offset back-patch

`sdb_fmt.cpp` stores the back-patched offset with `utxx::store_le`;
`secdb_fmt.cpp` stores it with `utxx::store_be`.  After `CandlesMeta::Write`
returns, `WriteCandlesMeta` records `ftell` (the end of the file) as the data
offset, patches it into the streams metadata, and appends the four magic
bytes `put32le(BEGIN_STREAM_DATA())` at exactly that offset. -/

/-- `sdb::StreamsMeta::WriteDataOffset`: patch four little-endian bytes at the
remembered `m_data_offset_pos`. -/
def StreamsMeta_WriteDataOffset_sdb (file : List Nat) (dataOffsetPos off : Nat) :
    List Nat :=
  listPatch file dataOffsetPos (store_le32 off)

/-- `secdb::StreamsMeta::WriteDataOffset`: identical except that the four
bytes are stored big-endian (`utxx::store_be`). -/
def StreamsMeta_WriteDataOffset_secdb (file : List Nat) (dataOffsetPos off : Nat) :
    List Nat :=
  listPatch file dataOffsetPos (store_be32 off)

/-- Tail of `BaseSDBFileIO::WriteCandlesMeta` in the sdb tree: back-patch the
current file position into the streams metadata, then append the magic. -/
def WriteCandlesMeta_tail_sdb (file : List Nat) (dataOffsetPos : Nat) : List Nat :=
  StreamsMeta_WriteDataOffset_sdb file dataOffsetPos file.length ++
    store_le32 BEGIN_STREAM_DATA

/-- Tail of `BaseSecDBFileIO::WriteCandlesMeta` in the secdb tree: the same
sequence, but the back-patch goes through the big-endian store. -/
def WriteCandlesMeta_tail_secdb (file : List Nat) (dataOffsetPos : Nat) : List Nat :=
  StreamsMeta_WriteDataOffset_secdb file dataOffsetPos file.length ++
    store_le32 BEGIN_STREAM_DATA

/-- C1.  In the secdb code path the four bytes stored at the data-offset field
are the big-endian image of the magic-marker offset, not the little-endian one
required by the claim: closing a 40-byte metadata prefix with the data-offset
field at position 20 leaves `[0, 0, 0, 40]` at that position although the
little-endian encoding of the marker offset 40 is `[40, 0, 0, 0]` (the marker
itself does sit at offset 40). -/
theorem C1_secdb_data_offset_is_big_endian :
    (((WriteCandlesMeta_tail_secdb (List.replicate 40 0) 20).drop 20).take 4 =
        [0, 0, 0, 40] ∧
      store_le32 40 = [40, 0, 0, 0] ∧
      ((WriteCandlesMeta_tail_secdb (List.replicate 40 0) 20).drop 40).take 4 =
        store_le32 BEGIN_STREAM_DATA ∧
      (((WriteCandlesMeta_tail_sdb (List.replicate 40 0) 20).drop 20).take 4 =
        store_le32 40)) ∧
    [0, 0, 0, 40] ≠ [40, 0, 0, 0] := by
  decide

/-! ## C2: CandleHeader::CalcSize -/

/-- `sdb::CandleHeader::CalcSize` (`sdb_fmt.cpp`): the candle count obtained by
adding `diff % resolution` to `diff` before the division. -/
def CandleHeader_CalcSize (a_start_time a_end_time : Int) (a_res : Int) : Int :=
  let diff := a_end_time - a_start_time
  let n := Int.tmod diff a_res
  let diff2 := if n > 0 then diff + n else diff
  Int.tdiv diff2 a_res

/-- C2.  `CalcSize(0, 9, 4)` evaluates to `2`, while the claimed ceiling
`ceil((9 - 0) / 4)` is `3`. -/
theorem C2_CalcSize_is_not_ceiling :
    CandleHeader_CalcSize 0 9 4 = 2 ∧ ((9 : Int) - 0 + 4 - 1) / 4 = 3 ∧
      (2 : Int) ≠ 3 := by
  decide

/-! ## C3: the magic-marker verification on the read path

`secdb`'s `BaseSecDBFileIO::Read` seeks to `StreamsMeta.data_offset`, reads
four bytes and fails unless `cast32le` of those bytes equals the magic.  The
sdb tree moved the check into the tail of `CandlesMeta::Read`
(`sdb_fmt.cpp:586-592`), where `marker` is computed with `get32le` from the
scratch buffer *before* the four marker bytes are read from the file, the
bytes read by `fread` are discarded, and the guard throws when the stale
value *equals* `BEGIN_STREAM_DATA()`. -/

/-- Marker verification of `secdb::BaseSecDBFileIO::Read`: proceed exactly when
four bytes are available and they decode little-endian to the magic. -/
def secdb_Read_magic_check (bytes : List Nat) : Bool :=
  decide (4 ≤ bytes.length) && decide (get32le bytes = BEGIN_STREAM_DATA)

/-- Marker verification at the end of `sdb::CandlesMeta::Read`: `stale` is the
content of the scratch buffer left over from the preceding reads, `bytes` are
the four bytes at the marker position.  The function returns `true` when the
reader proceeds (no exception): the `fread` must deliver four bytes and the
*stale* value must differ from the magic; the freshly read bytes are unused. -/
def sdb_CandlesMeta_marker_check (stale bytes : List Nat) : Bool :=
  decide (4 ≤ bytes.length) && !(decide (get32le stale = BEGIN_STREAM_DATA))

/-- C3.  With an all-zero scratch buffer (the bytes of a zeroed candle block),
the sdb reader proceeds even though the four bytes at the marker position are
`[1, 2, 3, 4]`, which do not decode to `0xABBABABA`; and when the stale
scratch bytes happen to equal the magic image the reader rejects a file whose
marker bytes are correct.  The secdb check, by contrast, accepts exactly the
magic image. -/
theorem C3_sdb_marker_check_inverted_and_stale :
    sdb_CandlesMeta_marker_check [0, 0, 0, 0] [1, 2, 3, 4] = true ∧
      get32le [1, 2, 3, 4] ≠ BEGIN_STREAM_DATA ∧
      sdb_CandlesMeta_marker_check (store_le32 BEGIN_STREAM_DATA)
        (store_le32 BEGIN_STREAM_DATA) = false ∧
      secdb_Read_magic_check (store_le32 BEGIN_STREAM_DATA) = true ∧
      secdb_Read_magic_check [1, 2, 3, 4] = false := by
  decide
/-! ## LEB128 varint codec (utxx::encode_uleb128 / decode_uleb128 and the
signed variants), operating on byte lists.  Decoders consume the byte list
structurally; the positional wrappers mirror the pointer-advancing C
decoders, which read past the caller's logical end when asked to (the
end-of-buffer checks are performed by the record codecs afterwards, and a
read past the available bytes yields the empty-tail value 0).  Encoders
recurse on an explicit fuel bounded by the value, with the defining
recurrence (`uleb128_encode_eq`, `sleb128_encode_eq`) proved below. -/

/-- Fueled unsigned LEB128 encoder body; `fuel > v` never runs out. -/
def uleb128_encode_fuel : Nat → Nat → List Nat
  | 0, v => [v % 128]
  | fuel + 1, v =>
    if v < 128 then [v] else (v % 128 + 128) :: uleb128_encode_fuel fuel (v / 128)

/-- Unsigned LEB128 encoding: 7 data bits per byte, high bit set on all but
the last byte. -/
def uleb128_encode (v : Nat) : List Nat := uleb128_encode_fuel (v + 1) v

/-- The encoder ignores the exact fuel once it exceeds the value. -/
theorem uleb128_encode_fuel_irrel (f : Nat) :
    ∀ (g v : Nat), v < f → v < g →
      uleb128_encode_fuel f v = uleb128_encode_fuel g v := by
  induction f with
  | zero => intro g v hf; omega
  | succ f ih =>
    intro g v hf hg
    cases g with
    | zero => omega
    | succ g =>
      show uleb128_encode_fuel (f + 1) v = uleb128_encode_fuel (g + 1) v
      rw [uleb128_encode_fuel, uleb128_encode_fuel]
      by_cases h : v < 128
      · simp [h]
      · rw [if_neg h, if_neg h]
        have hd : v / 128 < v := Nat.div_lt_self (by omega) (by omega)
        rw [ih g (v / 128) (by omega) (by omega)]

/-- Defining recurrence of the unsigned LEB128 encoder (the loop of
`utxx::encode_uleb128`). -/
theorem uleb128_encode_eq (v : Nat) :
    uleb128_encode v =
      if v < 128 then [v] else (v % 128 + 128) :: uleb128_encode (v / 128) := by
  show uleb128_encode_fuel (v + 1) v = _
  rw [uleb128_encode_fuel]
  by_cases h : v < 128
  · simp [h]
  · rw [if_neg h, if_neg h]
    have hd : v / 128 < v := Nat.div_lt_self (by omega) (by omega)
    rw [uleb128_encode_fuel_irrel v (v / 128 + 1) (v / 128) (by omega) (by omega)]
    rfl

/-- Structural unsigned LEB128 decoder on the remaining byte list; returns
the value and the number of bytes consumed. -/
def uleb128_decode_list : List Nat → Nat × Nat
  | [] => (0, 1)
  | b :: t =>
    let b := b % 256
    if 128 ≤ b then
      let r := uleb128_decode_list t
      (b - 128 + 128 * r.1, r.2 + 1)
    else (b, 1)

/-- Unsigned LEB128 decoding from position `pos`; returns the value and the
position one past the last byte consumed. -/
def uleb128_decode (buf : List Nat) (pos : Nat) : Nat × Nat :=
  let r := uleb128_decode_list (buf.drop pos)
  (r.1, pos + r.2)

/-- The quantity driving the signed encoder's loop shrinks at every
iteration that does not satisfy the stop condition. -/
theorem sleb128_natAbs_div_lt (v : Int)
    (h : ¬((v / 128 = 0 ∧ (v % 128).toNat < 64) ∨
        (v / 128 = -1 ∧ 64 ≤ (v % 128).toNat))) :
    (v / 128).natAbs < v.natAbs := by
  have h1 := Int.ediv_add_emod v 128
  have h2 : 0 ≤ v % 128 := Int.emod_nonneg v (by norm_num)
  have h3 : v % 128 < 128 := Int.emod_lt_of_pos v (by norm_num)
  omega

/-- Fueled signed LEB128 encoder body; `fuel > |v|` never runs out. -/
def sleb128_encode_fuel : Nat → Int → List Nat
  | 0, v => [(v % 128).toNat]
  | fuel + 1, v =>
    let byte := (v % 128).toNat
    let rest := v / 128
    if (rest = 0 ∧ byte < 64) ∨ (rest = -1 ∧ 64 ≤ byte) then [byte]
    else (byte + 128) :: sleb128_encode_fuel fuel rest

/-- Signed LEB128 encoding (sign-extend-at-last-byte variant): emit the low
7 bits, arithmetically shift right by 7 (floor division by 128, which is
`Int./` here since the divisor is positive), and stop once the remainder is
`0`/`-1` with a matching sign bit in the emitted byte. -/
def sleb128_encode (v : Int) : List Nat := sleb128_encode_fuel (v.natAbs + 1) v

/-- The signed encoder ignores the exact fuel once it exceeds `|v|`. -/
theorem sleb128_encode_fuel_irrel (f : Nat) :
    ∀ (g : Nat) (v : Int), v.natAbs < f → v.natAbs < g →
      sleb128_encode_fuel f v = sleb128_encode_fuel g v := by
  induction f with
  | zero => intro g v hf; omega
  | succ f ih =>
    intro g v hf hg
    cases g with
    | zero => omega
    | succ g =>
      show sleb128_encode_fuel (f + 1) v = sleb128_encode_fuel (g + 1) v
      rw [sleb128_encode_fuel, sleb128_encode_fuel]
      by_cases h : (v / 128 = 0 ∧ (v % 128).toNat < 64) ∨
          (v / 128 = -1 ∧ 64 ≤ (v % 128).toNat)
      · simp only [if_pos h]
      · simp only [if_neg h]
        have hd := sleb128_natAbs_div_lt v h
        rw [ih g (v / 128) (by omega) (by omega)]

/-- Defining recurrence of the signed LEB128 encoder (the loop of
`utxx::encode_sleb128`). -/
theorem sleb128_encode_eq (v : Int) :
    sleb128_encode v =
      if (v / 128 = 0 ∧ (v % 128).toNat < 64) ∨
          (v / 128 = -1 ∧ 64 ≤ (v % 128).toNat) then [(v % 128).toNat]
      else ((v % 128).toNat + 128) :: sleb128_encode (v / 128) := by
  show sleb128_encode_fuel (v.natAbs + 1) v = _
  rw [sleb128_encode_fuel]
  by_cases h : (v / 128 = 0 ∧ (v % 128).toNat < 64) ∨
      (v / 128 = -1 ∧ 64 ≤ (v % 128).toNat)
  · simp only [if_pos h]
  · simp only [if_neg h]
    have hd := sleb128_natAbs_div_lt v h
    rw [sleb128_encode_fuel_irrel v.natAbs ((v / 128).natAbs + 1) (v / 128)
      (by omega) (by omega)]
    rfl

/-- Structural signed LEB128 decoder on the remaining byte list: accumulate
7-bit slices and sign-extend from bit 6 of the final byte; returns the value
and the number of bytes consumed. -/
def sleb128_decode_list : List Nat → Int × Nat
  | [] => (0, 1)
  | b :: t =>
    let b := b % 256
    if 128 ≤ b then
      let r := sleb128_decode_list t
      ((b : Int) - 128 + 128 * r.1, r.2 + 1)
    else (if 64 ≤ b then (b : Int) - 128 else (b : Int), 1)

/-- Signed LEB128 decoding from position `pos`. -/
def sleb128_decode (buf : List Nat) (pos : Nat) : Int × Nat :=
  let r := sleb128_decode_list (buf.drop pos)
  (r.1, pos + r.2)

/-- Reading a list at the length of a prefixed list returns the next element. -/
theorem getD_append_cons (pre : List Nat) (x : Nat) (t : List Nat) :
    (pre ++ x :: t).getD pre.length 0 = x := by
  induction pre with
  | nil => rfl
  | cons a l ih => simpa using ih

/-- Variant of `getD_append_cons` with the tail split off by associativity. -/
theorem getD_append_cons_append (pre : List Nat) (x : Nat) (t rest : List Nat) :
    (pre ++ (x :: t) ++ rest).getD pre.length 0 = x := by
  rw [List.append_assoc]
  exact getD_append_cons pre x (t ++ rest)

/-- Every byte produced by the unsigned LEB128 encoder is below 256. -/
theorem uleb128_encode_lt (v : Nat) : ∀ b ∈ uleb128_encode v, b < 256 := by
  induction v using Nat.strong_induction_on with
  | _ v ih =>
    rw [uleb128_encode_eq]
    by_cases h : v < 128
    · simp [h]; omega
    · simp only [if_neg h, List.mem_cons]
      rintro b (rfl | hb)
      · have : v % 128 < 128 := Nat.mod_lt _ (by omega)
        omega
      · exact ih (v / 128) (Nat.div_lt_self (by omega) (by omega)) b hb

/-- The structural decoder inverts the unsigned encoder, consuming exactly
its bytes. -/
theorem uleb128_decode_list_encode (v : Nat) :
    ∀ rest : List Nat,
      uleb128_decode_list (uleb128_encode v ++ rest) =
        (v, (uleb128_encode v).length) := by
  induction v using Nat.strong_induction_on with
  | _ v ih =>
    intro rest
    rw [uleb128_encode_eq]
    by_cases h : v < 128
    · rw [if_pos h]
      show uleb128_decode_list (v :: rest) = (v, 1)
      rw [uleb128_decode_list]
      simp only [Nat.mod_eq_of_lt (by omega : v < 256)]
      rw [if_neg (by omega)]
    · rw [if_neg h]
      have hm : v % 128 < 128 := Nat.mod_lt _ (by omega)
      show uleb128_decode_list ((v % 128 + 128) :: (uleb128_encode (v / 128) ++ rest)) = _
      rw [uleb128_decode_list]
      simp only [Nat.mod_eq_of_lt (by omega : v % 128 + 128 < 256)]
      rw [if_pos (by omega)]
      rw [ih (v / 128) (Nat.div_lt_self (by omega) (by omega)) rest]
      refine Prod.ext ?_ ?_
      · show v % 128 + 128 - 128 + 128 * (v / 128) = v
        omega
      · show (uleb128_encode (v / 128)).length + 1 =
          ((v % 128 + 128) :: uleb128_encode (v / 128)).length
        simp [Nat.add_comm]

/-- Decoding an unsigned LEB128 encoding placed after an arbitrary prefix
recovers the value and stops exactly at the end of the encoding. -/
theorem uleb128_decode_encode (v : Nat) (pre rest : List Nat) :
    uleb128_decode (pre ++ uleb128_encode v ++ rest) pre.length =
      (v, pre.length + (uleb128_encode v).length) := by
  unfold uleb128_decode
  rw [List.append_assoc, List.drop_left, uleb128_decode_list_encode]

/-- Every byte produced by the signed LEB128 encoder is below 256. -/
theorem sleb128_encode_lt (v : Int) : ∀ b ∈ sleb128_encode v, b < 256 := by
  have main : ∀ (n : Nat) (w : Int), w.natAbs ≤ n → ∀ b ∈ sleb128_encode w, b < 256 := by
    intro n
    induction n using Nat.strong_induction_on with
    | _ n ih =>
      intro w hw
      have h2 : 0 ≤ w % 128 := Int.emod_nonneg w (by norm_num)
      have h3 : w % 128 < 128 := Int.emod_lt_of_pos w (by norm_num)
      rw [sleb128_encode_eq]
      by_cases h : (w / 128 = 0 ∧ (w % 128).toNat < 64) ∨
          (w / 128 = -1 ∧ 64 ≤ (w % 128).toNat)
      · rw [if_pos h]
        intro b hb
        simp only [List.mem_singleton] at hb
        omega
      · rw [if_neg h]
        intro b hb
        simp only [List.mem_cons] at hb
        rcases hb with rfl | hb
        · omega
        · have hlt := sleb128_natAbs_div_lt w h
          exact ih (w / 128).natAbs (by omega) (w / 128) le_rfl b hb
  exact main v.natAbs v le_rfl

/-- The structural decoder inverts the signed encoder, consuming exactly its
bytes. -/
theorem sleb128_decode_list_encode (v : Int) :
    ∀ rest : List Nat,
      sleb128_decode_list (sleb128_encode v ++ rest) =
        (v, (sleb128_encode v).length) := by
  suffices main : ∀ (n : Nat) (w : Int), w.natAbs ≤ n → ∀ rest : List Nat,
      sleb128_decode_list (sleb128_encode w ++ rest) =
        (w, (sleb128_encode w).length) from main v.natAbs v le_rfl
  intro n
  induction n using Nat.strong_induction_on with
  | _ n ih =>
    intro v hvn rest
    have h2 : 0 ≤ v % 128 := Int.emod_nonneg v (by norm_num)
    have h3 : v % 128 < 128 := Int.emod_lt_of_pos v (by norm_num)
    have h1 := Int.ediv_add_emod v 128
    rw [sleb128_encode_eq]
    by_cases h : (v / 128 = 0 ∧ (v % 128).toNat < 64) ∨
        (v / 128 = -1 ∧ 64 ≤ (v % 128).toNat)
    · rw [if_pos h]
      show sleb128_decode_list ((v % 128).toNat :: rest) = (v, 1)
      rw [sleb128_decode_list]
      simp only [Nat.mod_eq_of_lt (by omega : (v % 128).toNat < 256)]
      rw [if_neg (by omega)]
      refine Prod.ext ?_ rfl
      show (if 64 ≤ (v % 128).toNat then ((v % 128).toNat : Int) - 128
        else ((v % 128).toNat : Int)) = v
      rcases h with ⟨hz, hbyte⟩ | ⟨hm, hbyte⟩
      · rw [if_neg (by omega)]; omega
      · rw [if_pos hbyte]; omega
    · rw [if_neg h]
      show sleb128_decode_list
        (((v % 128).toNat + 128) :: (sleb128_encode (v / 128) ++ rest)) = _
      rw [sleb128_decode_list]
      simp only [Nat.mod_eq_of_lt (by omega : (v % 128).toNat + 128 < 256)]
      rw [if_pos (by omega)]
      have hlt := sleb128_natAbs_div_lt v h
      rw [ih (v / 128).natAbs (by omega) (v / 128) le_rfl rest]
      refine Prod.ext ?_ ?_
      · show (((v % 128).toNat + 128 : Nat) : Int) - 128 + 128 * (v / 128) = v
        push_cast
        omega
      · show (sleb128_encode (v / 128)).length + 1 =
          (((v % 128).toNat + 128) :: sleb128_encode (v / 128)).length
        simp [Nat.add_comm]

/-- Decoding a signed LEB128 encoding placed after an arbitrary prefix
recovers the value and stops exactly at the end of the encoding. -/
theorem sleb128_decode_encode (v : Int) (pre rest : List Nat) :
    sleb128_decode (pre ++ sleb128_encode v ++ rest) pre.length =
      (v, pre.length + (sleb128_encode v).length) := by
  unfold sleb128_decode
  rw [List.append_assoc, List.drop_left, sleb128_decode_list_encode]

/-! ## Candle aggregator (Candle, CandleHeader, CandlesMeta)

Candles live in a zero-initialized array created by the `CandleHeader`
constructor; `UpdateCandle` performs the online OHLC/volume update.  Prices
are C `int`s (`Int` here); the two volume counters are `uint32_t`, so each
addition is reduced modulo `2 ^ 32`. -/

/-- One fixed-size candle record (`struct Candle`). -/
structure Candle where
  m_open : Int
  m_high : Int
  m_low : Int
  m_close : Int
  m_buy_vol : Nat
  m_sell_vol : Nat
  m_data_offset : Nat
deriving DecidableEq

/-- A default-constructed candle: `memset(this, 0, sizeof(Candle))`. -/
def Candle.init : Candle := ⟨0, 0, 0, 0, 0, 0, 0⟩

/-- The per-candle body of `CandleHeader::UpdateCandle` (`sdb_fmt.cpp:346`,
`secdb_fmt.cpp:217`): set open on first use, track high/low with the
`low == 0` sentinel, always set close, and add positive quantities to the buy
volume and negated negative ones to the sell volume. -/
def Candle.update (c : Candle) (px qty : Int) : Candle :=
  let c1 := if c.m_open = 0 then { c with m_open := px } else c
  let c2 := if c1.m_high < px then { c1 with m_high := px } else c1
  let c3 := if c2.m_low > px ∨ c2.m_low = 0 then { c2 with m_low := px } else c2
  let c4 := { c3 with m_close := px }
  let c5 := if 0 < qty then
      { c4 with m_buy_vol := (c4.m_buy_vol + qty.toNat) % 4294967296 } else c4
  if qty < 0 then
    { c5 with m_sell_vol := (c5.m_sell_vol + (-qty).toNat) % 4294967296 } else c5

/-- Candle block metadata (`struct CandleHeader`); `m_last_updated` models the
last-updated candle pointer as an index into the candle array. -/
structure CandleHeader where
  m_resolution : Int
  m_start_time : Int
  m_data_offset : Nat
  m_last_updated : Option Nat
  m_candles : List Candle
deriving DecidableEq

/-- `CandleHeader::TimeToCandle`: bucket `n = (ts - start) / resolution` with
C truncating division, or none when out of range. -/
def CandleHeader.timeToCandle (h : CandleHeader) (ts : Int) : Option Nat :=
  let n := Int.tdiv (ts - h.m_start_time) h.m_resolution
  if n < 0 ∨ (h.m_candles.length : Int) ≤ n then none else some n.toNat

/-- `CandleHeader::UpdateCandle`: update the candle of the bucket containing
`ts` (no effect when `ts` resolves to no bucket) and remember it as
last-updated. -/
def CandleHeader.updateCandle (h : CandleHeader) (ts px qty : Int) : CandleHeader :=
  match h.timeToCandle ts with
  | none => h
  | some i =>
    { h with
      m_candles := h.m_candles.set i ((h.m_candles.getD i Candle.init).update px qty)
      m_last_updated := some i }

/-- `CandleHeader::UpdateDataOffset` via `CandlesMeta::UpdateDataOffset`
(`sdb_fmt.cpp:407`): when `ts` resolves to a bucket other than the
last-updated one, store the file position into that candle's data offset. -/
def CandleHeader.updateDataOffset (h : CandleHeader) (ts : Int) (off : Nat) :
    CandleHeader :=
  match h.timeToCandle ts with
  | none => h
  | some i =>
    if h.m_last_updated = some i then h
    else
      { h with
        m_candles := h.m_candles.set i
          { h.m_candles.getD i Candle.init with m_data_offset := off }
        m_last_updated := some i }

/-- The `CandleHeader` constructor (`secdb_fmt.hpp:341`): a zeroed candle
array of `CalcSize(start, end, resolution)` entries. -/
def CandleHeader.create (res startT endT : Int) : CandleHeader :=
  ⟨res, startT, 0, none,
    List.replicate (CandleHeader_CalcSize startT endT res).toNat Candle.init⟩

/-- Candle metadata: the ordered set of candle headers. -/
structure CandlesMeta where
  m_candle_headers : List CandleHeader
deriving DecidableEq

/-- `CandlesMeta::UpdateCandles`: fan the update out across all resolutions. -/
def CandlesMeta.updateCandles (m : CandlesMeta) (ts px qty : Int) : CandlesMeta :=
  ⟨m.m_candle_headers.map (fun h => h.updateCandle ts px qty)⟩

/-- `CandlesMeta::UpdateDataOffset`: fan the offset update out across all
resolutions. -/
def CandlesMeta.updateDataOffset (m : CandlesMeta) (ts : Int) (off : Nat) :
    CandlesMeta :=
  ⟨m.m_candle_headers.map (fun h => h.updateDataOffset ts off)⟩

/-- Fold a list of `(ts, px, qty)` updates through
`CandleHeader::UpdateCandle`. -/
def CandleHeader.foldUpdates (h : CandleHeader) (l : List (Int × Int × Int)) :
    CandleHeader :=
  l.foldl (fun h u => h.updateCandle u.1 u.2.1 u.2.2) h

/-- Sum of `|qty|` over a list of `(ts, px, qty)` updates. -/
def absQtySum (l : List (Int × Int × Int)) : Nat :=
  (l.map (fun u => u.2.2.natAbs)).sum

/-- C5 counterexample.  Three updates in bucket 0 of a fresh 60-second
resolution covering `[0, 60)`, at prices 5, 0, 7 (each buy quantity 1): the
final candle has `open = 5` but `low = 7`, because the zero price re-armed the
`low == 0` first-observation sentinel, so `low ≤ open` fails. -/
theorem C5_counterexample_zero_price_resets_low :
    (((((CandleHeader.create 60 0 60).updateCandle 0 5 1).updateCandle 0 0
          1).updateCandle 0 7 1).m_candles.getD 0 Candle.init).m_open = 5 ∧
      (((((CandleHeader.create 60 0 60).updateCandle 0 5 1).updateCandle 0 0
            1).updateCandle 0 7 1).m_candles.getD 0 Candle.init).m_low = 7 ∧
      ¬((7 : Int) ≤ 5) := by
  decide

/-! ### C5: candle invariants under a sequence of updates -/

/-- Updating a candle never changes which bucket a timestamp resolves to. -/
theorem timeToCandle_updateCandle (h : CandleHeader) (a b c t : Int) :
    (h.updateCandle a b c).timeToCandle t = h.timeToCandle t := by
  unfold CandleHeader.updateCandle
  cases h.timeToCandle a with
  | none => rfl
  | some i => simp [CandleHeader.timeToCandle, List.length_set]

/-- A resolved bucket index is inside the candle array. -/
theorem timeToCandle_some_lt (h : CandleHeader) (ts : Int) (i : Nat)
    (hs : h.timeToCandle ts = some i) : i < h.m_candles.length := by
  unfold CandleHeader.timeToCandle at hs
  by_cases hc : Int.tdiv (ts - h.m_start_time) h.m_resolution < 0 ∨
      (h.m_candles.length : Int) ≤ Int.tdiv (ts - h.m_start_time) h.m_resolution
  · simp [hc] at hs
  · simp only [if_neg hc, Option.some.injEq] at hs
    push_neg at hc
    omega

/-- `getD` after `set` at the same in-range index returns the new element. -/
theorem getD_set_self {α : Type} (l : List α) (i : Nat) (v d : α)
    (h : i < l.length) : (l.set i v).getD i d = v := by
  induction l generalizing i with
  | nil => simp at h
  | cons a t ih =>
    cases i with
    | zero => rfl
    | succ j => exact ih j (by simpa using h)

/-- `getD` of a replicated list with the same default is that element. -/
theorem getD_replicate {α : Type} (n i : Nat) (a : α) :
    (List.replicate n a).getD i a = a := by
  induction n generalizing i with
  | zero => cases i <;> rfl
  | succ m ih => cases i with
    | zero => rfl
    | succ j => simpa using ih j

/-- Fold a list of `(ts, px, qty)` updates through the per-candle update. -/
def Candle.foldUpdates (c : Candle) (l : List (Int × Int × Int)) : Candle :=
  l.foldl (fun c u => c.update u.2.1 u.2.2) c

/-- When every update lands in bucket `i`, folding the header-level update is
folding the candle-level update on the bucket's candle. -/
theorem foldUpdates_getD (l : List (Int × Int × Int)) :
    ∀ (h : CandleHeader) (i : Nat),
      (∀ u ∈ l, h.timeToCandle u.1 = some i) →
      (h.foldUpdates l).m_candles.getD i Candle.init =
        (h.m_candles.getD i Candle.init).foldUpdates l := by
  induction l with
  | nil => intro h i _; rfl
  | cons u t ih =>
    intro h i hb
    have hu : h.timeToCandle u.1 = some i := hb u (by simp)
    have hlt : i < h.m_candles.length := timeToCandle_some_lt h u.1 i hu
    have hstep : h.updateCandle u.1 u.2.1 u.2.2 =
        { h with
          m_candles := h.m_candles.set i
            ((h.m_candles.getD i Candle.init).update u.2.1 u.2.2)
          m_last_updated := some i } := by
      unfold CandleHeader.updateCandle
      rw [hu]
    have hb' : ∀ v ∈ t, (h.updateCandle u.1 u.2.1 u.2.2).timeToCandle v.1 = some i := by
      intro v hv
      rw [timeToCandle_updateCandle]
      exact hb v (by simp [hv])
    show ((h.updateCandle u.1 u.2.1 u.2.2).foldUpdates t).m_candles.getD i Candle.init =
      (h.m_candles.getD i Candle.init).foldUpdates (u :: t)
    rw [ih (h.updateCandle u.1 u.2.1 u.2.2) i hb']
    rw [hstep]
    show ((h.m_candles.set i
        ((h.m_candles.getD i Candle.init).update u.2.1 u.2.2)).getD i
          Candle.init).foldUpdates t = _
    rw [getD_set_self _ _ _ _ hlt]
    rfl

/-- Sum of the positive (buy) quantities of a list of updates. -/
def buysOf (l : List (Int × Int × Int)) : Nat :=
  (l.map (fun u => if 0 < u.2.2 then u.2.2.toNat else 0)).sum

/-- Sum of the negated negative (sell) quantities of a list of updates. -/
def sellsOf (l : List (Int × Int × Int)) : Nat :=
  (l.map (fun u => if u.2.2 < 0 then (-u.2.2).toNat else 0)).sum

/-- `|qty|` sums split into buy and sell parts. -/
theorem absQtySum_eq_buys_add_sells (l : List (Int × Int × Int)) :
    absQtySum l = buysOf l + sellsOf l := by
  induction l with
  | nil => rfl
  | cons u t ih =>
    simp only [absQtySum, buysOf, sellsOf, List.map_cons, List.sum_cons] at *
    have : u.2.2.natAbs = (if 0 < u.2.2 then u.2.2.toNat else 0) +
        (if u.2.2 < 0 then (-u.2.2).toNat else 0) := by
      split_ifs <;> omega
    omega

/-- Invariant carried through the candle fold for positive prices: OHLC are
ordered around a positive low, and the 32-bit volume counters hold the running
buy/sell sums reduced modulo `2 ^ 32`. -/
def CandleInv (c : Candle) (B S : Nat) : Prop :=
  0 < c.m_low ∧ c.m_low ≤ c.m_open ∧ c.m_open ≤ c.m_high ∧
    c.m_low ≤ c.m_close ∧ c.m_close ≤ c.m_high ∧
    c.m_buy_vol = B % 4294967296 ∧ c.m_sell_vol = S % 4294967296

/-- One positive-price update preserves the invariant and accounts the
quantity into the matching volume counter. -/
theorem CandleInv.update (c : Candle) (B S : Nat) (px q : Int)
    (hinv : CandleInv c B S) (hpx : 0 < px) :
    CandleInv (c.update px q) (B + (if 0 < q then q.toNat else 0))
      (S + (if q < 0 then (-q).toNat else 0)) := by
  obtain ⟨h1, h2, h3, h4, h5, h6, h7⟩ := hinv
  obtain ⟨o, hi, lo, cl, bv, sv, off⟩ := c
  simp only at h1 h2 h3 h4 h5 h6 h7
  have hopen : ¬(o = 0) := by omega
  unfold Candle.update CandleInv
  simp only [if_neg hopen, apply_ite Candle.m_low, apply_ite Candle.m_high,
    apply_ite Candle.m_open, apply_ite Candle.m_close, apply_ite Candle.m_buy_vol,
    apply_ite Candle.m_sell_vol]
  split_ifs <;> refine ⟨?_, ?_, ?_, ?_, ?_, ?_, ?_⟩ <;> omega

/-- The first positive-price update of a fresh candle establishes the
invariant. -/
theorem CandleInv.first (px q : Int) (hpx : 0 < px) :
    CandleInv (Candle.init.update px q) (if 0 < q then q.toNat else 0)
      (if q < 0 then (-q).toNat else 0) := by
  unfold Candle.update CandleInv Candle.init
  split_ifs <;> simp_all <;> omega

/-- Folding positive-price updates preserves the invariant, accumulating the
buy and sell sums. -/
theorem CandleInv.fold (l : List (Int × Int × Int)) :
    ∀ (c : Candle) (B S : Nat), (∀ u ∈ l, 0 < u.2.1) → CandleInv c B S →
      CandleInv (c.foldUpdates l) (B + buysOf l) (S + sellsOf l) := by
  induction l with
  | nil =>
    intro c B S _ hinv
    simpa [Candle.foldUpdates, buysOf, sellsOf] using hinv
  | cons u t ih =>
    intro c B S hpx hinv
    have hstep := CandleInv.update c B S u.2.1 u.2.2 hinv (hpx u (by simp))
    have := ih (c.update u.2.1 u.2.2)
      (B + (if 0 < u.2.2 then u.2.2.toNat else 0))
      (S + (if u.2.2 < 0 then (-u.2.2).toNat else 0))
      (fun v hv => hpx v (by simp [hv])) hstep
    show CandleInv ((c.update u.2.1 u.2.2).foldUpdates t) _ _
    simp only [buysOf, sellsOf, List.map_cons, List.sum_cons] at this ⊢
    have hb : B + ((if 0 < u.2.2 then u.2.2.toNat else 0) +
        (t.map (fun u => if 0 < u.2.2 then u.2.2.toNat else 0)).sum) =
        B + (if 0 < u.2.2 then u.2.2.toNat else 0) +
          (t.map (fun u => if 0 < u.2.2 then u.2.2.toNat else 0)).sum := by omega
    have hs : S + ((if u.2.2 < 0 then (-u.2.2).toNat else 0) +
        (t.map (fun u => if u.2.2 < 0 then (-u.2.2).toNat else 0)).sum) =
        S + (if u.2.2 < 0 then (-u.2.2).toNat else 0) +
          (t.map (fun u => if u.2.2 < 0 then (-u.2.2).toNat else 0)).sum := by omega
    rw [hb, hs]
    exact this

/-- C5 (amended).  For a fresh candle header and any nonempty sequence of
updates that all land in bucket `i`, carry a positive price, and whose total
absolute quantity fits the 32-bit volume counters, the resulting candle
satisfies `low ≤ open ≤ high`, `low ≤ close ≤ high`, and the two volume
counters sum to the total `|qty|`. -/
theorem C5_candle_invariants (res startT endT : Int)
    (updates : List (Int × Int × Int)) (i : Nat)
    (hne : updates ≠ [])
    (hb : ∀ u ∈ updates, (CandleHeader.create res startT endT).timeToCandle u.1 = some i)
    (hpx : ∀ u ∈ updates, 0 < u.2.1)
    (hvol : absQtySum updates < 4294967296) :
    ((((CandleHeader.create res startT endT).foldUpdates updates).m_candles.getD i
        Candle.init).m_low ≤
      ((((CandleHeader.create res startT endT).foldUpdates updates).m_candles.getD i
        Candle.init)).m_open) ∧
    ((((CandleHeader.create res startT endT).foldUpdates updates).m_candles.getD i
        Candle.init).m_open ≤
      (((CandleHeader.create res startT endT).foldUpdates updates).m_candles.getD i
        Candle.init).m_high) ∧
    ((((CandleHeader.create res startT endT).foldUpdates updates).m_candles.getD i
        Candle.init).m_low ≤
      (((CandleHeader.create res startT endT).foldUpdates updates).m_candles.getD i
        Candle.init).m_close) ∧
    ((((CandleHeader.create res startT endT).foldUpdates updates).m_candles.getD i
        Candle.init).m_close ≤
      (((CandleHeader.create res startT endT).foldUpdates updates).m_candles.getD i
        Candle.init).m_high) ∧
    (((CandleHeader.create res startT endT).foldUpdates updates).m_candles.getD i
        Candle.init).m_buy_vol +
      (((CandleHeader.create res startT endT).foldUpdates updates).m_candles.getD i
        Candle.init).m_sell_vol = absQtySum updates := by
  rw [foldUpdates_getD updates (CandleHeader.create res startT endT) i hb]
  have hcand : (CandleHeader.create res startT endT).m_candles.getD i Candle.init =
      Candle.init := by
    unfold CandleHeader.create
    exact getD_replicate _ i Candle.init
  rw [hcand]
  cases updates with
  | nil => exact absurd rfl hne
  | cons u t =>
    have hfirst := CandleInv.first u.2.1 u.2.2 (hpx u (by simp))
    have hfold := CandleInv.fold t (Candle.init.update u.2.1 u.2.2)
      (if 0 < u.2.2 then u.2.2.toNat else 0)
      (if u.2.2 < 0 then (-u.2.2).toNat else 0)
      (fun v hv => hpx v (by simp [hv])) hfirst
    have habs := absQtySum_eq_buys_add_sells (u :: t)
    have habs' : absQtySum (u :: t) =
        ((if 0 < u.2.2 then u.2.2.toNat else 0) + buysOf t) +
          ((if u.2.2 < 0 then (-u.2.2).toNat else 0) + sellsOf t) := by
      simp only [buysOf, sellsOf, List.map_cons, List.sum_cons] at habs ⊢
      have : u.2.2.natAbs = (if 0 < u.2.2 then u.2.2.toNat else 0) +
          (if u.2.2 < 0 then (-u.2.2).toNat else 0) := by
        split_ifs <;> omega
      simp only [absQtySum, List.map_cons, List.sum_cons] at habs ⊢
      omega
    obtain ⟨h1, h2, h3, h4, h5, h6, h7⟩ := hfold
    show (Candle.foldUpdates _ (u :: t)).m_low ≤ _ ∧ _
    have hcc : Candle.foldUpdates Candle.init (u :: t) =
        (Candle.init.update u.2.1 u.2.2).foldUpdates t := rfl
    rw [hcc]
    refine ⟨h2, h3, h4, h5, ?_⟩
    rw [h6, h7]
    omega

/-- Witness for C5: two updates in bucket 0 (buy 2 at price 10, sell 3 at
price 12) satisfy the hypotheses, and the invariant follows by the theorem. -/
theorem C5_candle_invariants_witness :
    ((((CandleHeader.create 60 0 60).foldUpdates [(0, 10, 2), (0, 12, -3)]).m_candles.getD 0
        Candle.init).m_low ≤
      ((((CandleHeader.create 60 0 60).foldUpdates [(0, 10, 2), (0, 12, -3)]).m_candles.getD 0
        Candle.init)).m_open) ∧
    ((((CandleHeader.create 60 0 60).foldUpdates [(0, 10, 2), (0, 12, -3)]).m_candles.getD 0
        Candle.init).m_open ≤
      (((CandleHeader.create 60 0 60).foldUpdates [(0, 10, 2), (0, 12, -3)]).m_candles.getD 0
        Candle.init).m_high) ∧
    ((((CandleHeader.create 60 0 60).foldUpdates [(0, 10, 2), (0, 12, -3)]).m_candles.getD 0
        Candle.init).m_low ≤
      (((CandleHeader.create 60 0 60).foldUpdates [(0, 10, 2), (0, 12, -3)]).m_candles.getD 0
        Candle.init).m_close) ∧
    ((((CandleHeader.create 60 0 60).foldUpdates [(0, 10, 2), (0, 12, -3)]).m_candles.getD 0
        Candle.init).m_close ≤
      (((CandleHeader.create 60 0 60).foldUpdates [(0, 10, 2), (0, 12, -3)]).m_candles.getD 0
        Candle.init).m_high) ∧
    (((CandleHeader.create 60 0 60).foldUpdates [(0, 10, 2), (0, 12, -3)]).m_candles.getD 0
        Candle.init).m_buy_vol +
      (((CandleHeader.create 60 0 60).foldUpdates [(0, 10, 2), (0, 12, -3)]).m_candles.getD 0
        Candle.init).m_sell_vol = absQtySum [(0, 10, 2), (0, 12, -3)] :=
  C5_candle_invariants 60 0 60 [(0, 10, 2), (0, 12, -3)] 0 (by decide) (by decide)
    (by decide) (by decide)

/-! ## Stream record codecs (StreamBase, SecondsSample, QuoteSample,
TradeSample)

A record starts with one byte holding the stream type in the low 7 bits and
the delta flag in the high bit.  `StreamType`: Seconds = 0, Quotes = 1,
Trade = 2, Order = 3, Summary = 4, Message = 5. -/

/-- `StreamBase::Write`: the leading byte of a record. -/
def StreamBase_byte (tp : Nat) (delta : Bool) : Nat :=
  tp % 128 + if delta then 128 else 0

/-- `SecondsSample::Write` (`sdb_fmt.cpp:221`): header byte 0 followed by the
signed LEB128 image of the 24-bit seconds-since-midnight field. -/
def SecondsSample_Write (sec : Int) : List Nat :=
  StreamBase_byte 0 false :: sleb128_encode (Int.emod sec 16777216)

/-- `SecondsSample::Read` (`sdb_fmt.cpp:232`): skip the header byte, decode
one signed varint; if the cursor did not stay strictly inside the buffer the
record is incomplete (`return 0`, modelled as `none`).  The reconstructed
sample truncates the value to the 24-bit field. -/
def SecondsSample_Read (buf : List Nat) (sz : Nat) : Option (Int × Nat) :=
  let d := sleb128_decode buf 1
  if sz ≤ d.2 then none else some (Int.emod d.1 16777216, d.2)

/-- `QuoteSample::Write` (`secdb_fmt.hxx:49`): nothing is written when both
counts are zero; otherwise the header byte, the unsigned LEB128 time delta,
one byte packing `ask_cnt` in the high nibble and `bid_cnt` in the low nibble
(an 8-bit truncation of `ask_cnt << 4 | bid_cnt`), and the signed LEB128
price/quantity pairs of the first `bid_cnt + ask_cnt` levels. -/
def QuoteSample_Write (delta : Bool) (time : Nat) (bidCnt askCnt : Nat)
    (book : List (Int × Int)) : List Nat :=
  if bidCnt = 0 ∧ askCnt = 0 then []
  else
    StreamBase_byte 1 delta ::
      (uleb128_encode time ++ [Nat.lor (askCnt * 16) bidCnt % 256] ++
        book.flatMap (fun l => sleb128_encode l.1 ++ sleb128_encode l.2))

/-- Result of `QuoteSample::Read`: an incomplete buffer yields "need more
input" (zero bytes consumed); nibble counts above `MaxDepth` throw. -/
inductive QuoteReadResult
  | needMore
  | tooManyLevels
  | ok (time : Nat) (bidCnt askCnt : Nat) (levels : List (Int × Int))
      (lastPx : Int) (consumed : Nat)
deriving DecidableEq

/-- The level loop of `QuoteSample::Read` (`secdb_fmt.hxx:109`): decode `k`
further levels, restoring absolute prices by cumulative sums starting from
`prev`; after each level, overrunning the buffer end returns "need more". -/
def QuoteSample_Read_levels (buf : List Nat) (sz : Nat) :
    Nat → Nat → Int → Option (List (Int × Int) × Nat)
  | 0, pos, _ => some ([], pos)
  | k + 1, pos, prev =>
    let dp := sleb128_decode buf pos
    let dq := sleb128_decode buf dp.2
    let px := prev + dp.1
    if sz < dq.2 then none
    else
      match QuoteSample_Read_levels buf sz k dq.2 px with
      | none => none
      | some (lvls, pos2) => some ((px, dq.1) :: lvls, pos2)

/-- Assemble the result of `QuoteSample::Read` from the level-loop outcome:
an overrun surfaces as "need more input", otherwise the decoded sample carries
the restored levels, the restored first price (which the caller's last-price
reference receives) and the consumed byte count. -/
def QuoteSample_pack (time bid ask : Nat) (fpx q0 : Int)
    (L : Option (List (Int × Int) × Nat)) : QuoteReadResult :=
  match L with
  | none => .needMore
  | some (lvls, pos3) => .ok time bid ask ((fpx, q0) :: lvls) fpx pos3

/-- `QuoteSample::Read` (`secdb_fmt.hxx:74`).  The first level is decoded
without a buffer check; when both nibble counts are zero the level loop runs
past the level array until the end-of-buffer check fires, which surfaces as
"need more input". -/
def QuoteSample_Read (maxDepth : Nat) (buf : List Nat) (sz : Nat)
    (isDelta : Bool) (lastPx : Int) : QuoteReadResult :=
  let t := uleb128_decode buf 1
  if sz ≤ t.2 then .needMore
  else
    let b := buf.getD t.2 0 % 256
    let bidCnt := b % 16
    let askCnt := b / 16 % 16
    if maxDepth < bidCnt ∨ maxDepth < askCnt then .tooManyLevels
    else
      let dp := sleb128_decode buf (t.2 + 1)
      let dq := sleb128_decode buf dp.2
      let firstPx := if isDelta then dp.1 + lastPx else dp.1
      match bidCnt + askCnt with
      | 0 => .needMore
      | k + 1 =>
        QuoteSample_pack t.1 bidCnt askCnt firstPx dq.1
          (QuoteSample_Read_levels buf sz k dq.2 firstPx)

/-- Bit 4 of the trade field mask: `has_qty`. -/
def FieldMask_has_qty (mask : Nat) : Bool := mask / 16 % 2 = 1

/-- Bit 5 of the trade field mask: `has_trade_id`. -/
def FieldMask_has_trade_id (mask : Nat) : Bool := mask / 32 % 2 = 1

/-- Bit 6 of the trade field mask: `has_order_id`. -/
def FieldMask_has_order_id (mask : Nat) : Bool := mask / 64 % 2 = 1

/-- The packed trade field-mask byte
`{internal:1, aggr:2, side:1, has_qty:1, has_trade_id:1, has_order_id:1}`,
least-significant bit first. -/
def FieldMask_byte (internal : Bool) (aggr : Nat) (side : Bool)
    (hasQty hasTid hasOid : Bool) : Nat :=
  (if internal then 1 else 0) + 2 * (aggr % 4) + (if side then 8 else 0) +
    (if hasQty then 16 else 0) + (if hasTid then 32 else 0) +
    (if hasOid then 64 else 0)

/-- `TradeSample::Write` (`sdb_fmt.cpp:608`): header, unsigned LEB128 time,
mask byte, signed LEB128 price, then quantity, trade id and order id exactly
when the corresponding mask bits are set. -/
def TradeSample_Write (delta : Bool) (time : Nat) (mask : Nat) (px qty : Int)
    (tid oid : Nat) : List Nat :=
  StreamBase_byte 2 delta ::
    (uleb128_encode time ++ [mask % 256] ++ sleb128_encode px ++
      (if FieldMask_has_qty mask then sleb128_encode qty else []) ++
      (if FieldMask_has_trade_id mask then uleb128_encode tid else []) ++
      (if FieldMask_has_order_id mask then uleb128_encode oid else []))

/-- Result of `TradeSample::Read`: "need more input" consumes nothing and
leaves the caller's last-price reference unchanged; on success the reference
becomes the decoded absolute price. -/
inductive TradeReadResult
  | needMore
  | ok (time : Nat) (mask : Nat) (px qty : Int) (tid oid : Nat)
      (lastPx : Int) (consumed : Nat)
deriving DecidableEq

/-- `TradeSample::Read` (`sdb_fmt.cpp:630`).  The time decode is followed by
an `a_buf > end` check; every later field is followed by an `a_buf >= end`
check, so a record ending exactly at the buffer end is reported as
incomplete. -/
def TradeSample_Read (buf : List Nat) (sz : Nat) (isDelta : Bool)
    (lastPx : Int) : TradeReadResult :=
  let t := uleb128_decode buf 1
  if sz < t.2 then .needMore
  else
    let mask := buf.getD t.2 0 % 256
    let dp := sleb128_decode buf (t.2 + 1)
    let px := if isDelta then dp.1 + lastPx else dp.1
    if sz ≤ dp.2 then .needMore
    else
      let q := if FieldMask_has_qty mask then sleb128_decode buf dp.2 else (0, dp.2)
      if sz ≤ q.2 then .needMore
      else
        let ti := if FieldMask_has_trade_id mask then uleb128_decode buf q.2
          else (0, q.2)
        if sz ≤ ti.2 then .needMore
        else
          let oi := if FieldMask_has_order_id mask then uleb128_decode buf ti.2
            else (0, ti.2)
          if sz ≤ oi.2 then .needMore
          else .ok t.1 mask px q.1 ti.1 oi.1 px oi.2

/-! ## Writer orchestration (`BaseSecDBFileIO`)

The writer state carries the file bytes, the monotonicity watermarks and the
last-price references.  Timestamps are microseconds since the file's UTC
midnight; the sentinel "NaN" last-price is an `Option` (design note §9 of the
format documentation treats the `INT_MIN` sentinel and a tagged optional as
equivalent).  Prices are passed in `PriceUnit::PriceSteps`, for which
`NormalizePx` is the identity. -/

/-- `NormalizePx<PriceSteps>`: the identity on step-count prices. -/
def NormalizePx (px : Int) : Int := px

/-- Writer-side errors that the claims mention: the out-of-order timestamp
rejection and the bid/ask count validation. -/
inductive WriteErr
  | outOfOrder
  | tooManyLevels
deriving DecidableEq

/-- Writer state (the relevant fields of `BaseSecDBFileIO`). -/
structure WState where
  m_file : List Nat
  m_last_ts : Int
  m_last_sec : Int
  m_last_usec : Int
  m_next_second : Int
  m_last_quote_px : Option Int
  m_last_trade_px : Option Int
  m_candles_meta : CandlesMeta
deriving DecidableEq

/-- `BaseSecDBFileIO::WriteSeconds` (`secdb_fmt_io.hxx:339`): refresh the
`last_*` watermarks; when the second advanced (or no second was written yet),
update the candle data offsets with the current file position, append a
`SecondsSample`, bump `m_next_second` and reset both last-price references. -/
def WriteSeconds (s : WState) (now : Int) : Bool × WState :=
  let sec := Int.tdiv now 1000000
  let usec := Int.tmod now 1000000
  let s1 := { s with m_last_sec := sec, m_last_ts := now, m_last_usec := usec }
  if s1.m_next_second = 0 ∨ s1.m_next_second ≤ sec then
    (true,
      { s1 with
        m_candles_meta := s1.m_candles_meta.updateDataOffset sec s1.m_file.length
        m_file := s1.m_file ++ SecondsSample_Write sec
        m_next_second := sec + 1
        m_last_quote_px := none
        m_last_trade_px := none })
  else (false, s1)

/-- The reference-price anchor selection of `BaseSecDBFileIO::WriteQuotes`
(`secdb_fmt_io.hxx:402`): with bids present the anchor is the deepest bid
`bids[bid_cnt-1]`; otherwise, with asks present, the code takes
`asks[ask_cnt-1]`; with neither the call is a no-op.  Books are total
functions so that the out-of-range accesses of the ask-only branch read the
array's default-initialized storage, as the C++ does. -/
def WriteQuotes_anchor (bids asks : Nat → Int × Int) (bidCnt askCnt : Nat) :
    Option (Int × Int) :=
  if 0 < bidCnt then
    some (NormalizePx (bids (bidCnt - 1)).1, (bids (bidCnt - 1)).2)
  else if 0 < askCnt then
    some (NormalizePx (asks (askCnt - 1)).1, (asks (askCnt - 1)).2)
  else none

/-- The level traversal of `WriteQuotes` after the anchor.  With bids present:
`bids[bid_cnt-2] .. bids[0]`, then `asks[0] .. asks[ask_cnt-1]`.  In the
ask-only branch the two pointers are initialized so that the loop walks
`asks[ask_cnt] .. asks[2*ask_cnt-2]` instead. -/
def WriteQuotes_tail (bids asks : Nat → Int × Int) (bidCnt askCnt : Nat) :
    List (Int × Int) :=
  if 0 < bidCnt then
    ((List.range (bidCnt - 1)).map fun j =>
      (NormalizePx (bids (bidCnt - 2 - j)).1, (bids (bidCnt - 2 - j)).2)) ++
      ((List.range askCnt).map fun j => (NormalizePx (asks j).1, (asks j).2))
  else
    (List.range (askCnt - 1)).map fun j =>
      (NormalizePx (asks (askCnt + j)).1, (asks (askCnt + j)).2)

/-- Successive first differences against `prev` (the writer's `prev_px`
chain). -/
def diffLevels (prev : Int) : List (Int × Int) → List (Int × Int)
  | [] => []
  | (px, q) :: t => (px - prev, q) :: diffLevels px t

/-- The `QuoteSample` level list built by `WriteQuotes`: the anchor level
(price relative to the last quote price when that reference is set) followed
by the first differences along the traversal. -/
def WriteQuotes_book (lastQuotePx : Option Int) (firstPx : Int) (qty : Int)
    (tail : List (Int × Int)) : List (Int × Int) :=
  (match lastQuotePx with
    | some lq => firstPx - lq
    | none => firstPx, qty) :: diffLevels firstPx tail

/-- `BaseSecDBFileIO::WriteQuotes` (`secdb_fmt_io.hxx:383`): validate the
per-side counts, select the anchor (returning silently when both books are
empty), reject out-of-order timestamps, advance the second, build the
difference-encoded book and append the encoded `QuoteSample`. -/
def BaseSecDBFileIO_WriteQuotes (maxDepth : Nat) (s : WState) (ts : Int)
    (bids : Nat → Int × Int) (bidCnt : Nat) (asks : Nat → Int × Int)
    (askCnt : Nat) : WState × Option WriteErr :=
  if maxDepth < bidCnt ∨ maxDepth < askCnt then (s, some .tooManyLevels)
  else
    match WriteQuotes_anchor bids asks bidCnt askCnt with
    | none => (s, none)
    | some (firstPx, qty) =>
      if ts < s.m_last_ts then (s, some .outOfOrder)
      else
        let prevUsec := s.m_last_usec
        let r := WriteSeconds s ts
        let s1 := r.2
        let tsd := if r.1 then s1.m_last_usec else s1.m_last_usec - prevUsec
        let delta := s1.m_last_quote_px.isSome
        let book := WriteQuotes_book s1.m_last_quote_px firstPx qty
          (WriteQuotes_tail bids asks bidCnt askCnt)
        let bytes := QuoteSample_Write delta (Int.emod tsd 4294967296).toNat
          bidCnt askCnt book
        ({ s1 with
            m_file := s1.m_file ++ bytes
            m_last_quote_px := some firstPx }, none)

/-- `BaseSecDBFileIO::WriteTrade` (`secdb_fmt_io.hxx:480`): reject
out-of-order timestamps first; then advance the second, difference-encode the
price against the last trade price, append the encoded `TradeSample` and fan
the trade out into the candle aggregators (`side` is `true` for a sell, as in
the field mask). -/
def BaseSecDBFileIO_WriteTrade (s : WState) (ts : Int) (side : Bool) (px : Int)
    (qty : Nat) (aggr : Nat) (ordId tradeId : Nat) : WState × Option WriteErr :=
  if ts < s.m_last_ts then (s, some .outOfOrder)
  else
    let prevUsec := s.m_last_usec
    let r := WriteSeconds s ts
    let s1 := r.2
    let tsd := if r.1 then s1.m_last_usec else s1.m_last_usec - prevUsec
    let delta := s1.m_last_trade_px.isSome
    let pxn := NormalizePx px
    let pxInc := match s1.m_last_trade_px with
      | some lp => pxn - lp
      | none => pxn
    let mask := FieldMask_byte false aggr side (qty ≠ 0) (tradeId ≠ 0) (ordId ≠ 0)
    let bytes := TradeSample_Write delta (Int.emod tsd 4294967296).toNat mask
      pxInc (qty : Int) tradeId ordId
    let s2 := { s1 with
      m_file := s1.m_file ++ bytes
      m_last_trade_px := some pxn }
    let q : Int := if side then -(qty : Int) else (qty : Int)
    ({ s2 with m_candles_meta := s2.m_candles_meta.updateCandles s2.m_last_sec pxn q },
      none)

/-! ## Reader loop (`BaseSecDBFileIO::Read`, after the magic check)

The decode loop refills a buffer from the file, dispatches on the leading
byte of each record, delivers quotes and trades to the visitor, and stops as
soon as a refill returns zero bytes.  Explicit fuel makes both loops
structurally recursive; the distinguished `outOfFuel` result shows when a
theorem's evaluation really terminated. -/

/-- Reader state: the unread file bytes, the decode buffer, the number of
visited (quote/trade) samples, and the watermarks the loop maintains. -/
structure RState where
  r_file : List Nat
  r_buf : List Nat
  r_visited : Nat
  r_last_sec : Int
  r_last_usec : Int
  r_next_second : Int
  r_last_quote_px : Option Int
  r_last_trade_px : Option Int
deriving DecidableEq

/-- Result of one pass of the inner decode loop. -/
inductive LoopRes
  | stopped (st : RState)
  | errUnsupported
  | errInvalidStream
  | errFormat
  | outOfFuel
deriving DecidableEq

/-- Inner decode loop of `Read` (`secdb_fmt_io.hxx:631`): while the buffer
holds at least two bytes, peek the leading byte, dispatch on the stream type
(`Seconds` updates the watermarks without visiting; `Quotes`/`Trade` decode,
update the running time and last price, and visit), stop on "need more
input", and fail on reserved or invalid stream kinds. -/
def ReadLoop_inner (maxDepth : Nat) : Nat → RState → LoopRes
  | 0, _ => .outOfFuel
  | fuel + 1, st =>
    if st.r_buf.length < 2 then .stopped st
    else
      let x := st.r_buf.getD 0 0 % 256
      let isDelta := 128 ≤ x
      let tp := x % 128
      if tp = 0 then
        match SecondsSample_Read st.r_buf st.r_buf.length with
        | none => .stopped st
        | some (secs, n) =>
          ReadLoop_inner maxDepth fuel
            { st with
              r_buf := st.r_buf.drop n
              r_last_sec := secs
              r_last_usec := 0
              r_next_second := secs + 1
              r_last_quote_px := none
              r_last_trade_px := none }
      else if tp = 1 then
        match QuoteSample_Read maxDepth st.r_buf st.r_buf.length isDelta
            (st.r_last_quote_px.getD 0) with
        | .needMore => .stopped st
        | .tooManyLevels => .errFormat
        | .ok time _ _ _ lastPx n =>
          ReadLoop_inner maxDepth fuel
            { st with
              r_buf := st.r_buf.drop n
              r_visited := st.r_visited + 1
              r_last_usec := st.r_last_usec + (time : Int)
              r_last_quote_px := some lastPx }
      else if tp = 2 then
        match TradeSample_Read st.r_buf st.r_buf.length isDelta
            (st.r_last_trade_px.getD 0) with
        | .needMore => .stopped st
        | .ok time _ _ _ _ _ lastPx n =>
          ReadLoop_inner maxDepth fuel
            { st with
              r_buf := st.r_buf.drop n
              r_visited := st.r_visited + 1
              r_last_usec := st.r_last_usec + (time : Int)
              r_last_trade_px := some lastPx }
      else if tp ≤ 5 then .errUnsupported
      else .errInvalidStream

/-- Result of the reader loop. -/
inductive ReadResult
  | normalEnd (visited : Nat) (leftover : List Nat)
  | errUnsupported
  | errInvalidStream
  | errFormat
  | outOfFuel
deriving DecidableEq

/-- Outer loop of `Read` (`secdb_fmt_io.hxx:623`): refill up to the 4096-byte
buffer capacity from the file; a zero-byte refill breaks out of the loop and
the function returns normally, whatever the buffer still holds; otherwise run
the inner decode loop and repeat. -/
def BaseSecDBFileIO_Read (maxDepth : Nat) : Nat → RState → ReadResult
  | 0, _ => .outOfFuel
  | fuel + 1, st =>
    let k := min 4096 st.r_file.length
    if k = 0 then .normalEnd st.r_visited st.r_buf
    else
      let st1 := { st with
        r_buf := st.r_buf ++ st.r_file.take k
        r_file := st.r_file.drop k }
      match ReadLoop_inner maxDepth (st1.r_buf.length + 1) st1 with
      | .stopped st2 => BaseSecDBFileIO_Read maxDepth fuel st2
      | .errUnsupported => .errUnsupported
      | .errInvalidStream => .errInvalidStream
      | .errFormat => .errFormat
      | .outOfFuel => .outOfFuel

/-- C9.  A data stream holding one complete `SecondsSample` (3600 s) followed
by the first four bytes of a trade record (header, time, mask with `has_qty`,
price — the quantity field is missing) makes the reader return normally with
the four partial-record bytes still unread and no sample visited; no
"Truncated" failure exists on this path. -/
theorem C9_eof_with_partial_record_returns_normally :
    BaseSecDBFileIO_Read 10 100
        ⟨SecondsSample_Write 3600 ++ [2, 0, 16, 5], [], 0, 0, 0, 0, none, none⟩ =
      .normalEnd 0 [2, 0, 16, 5] ∧
    [2, 0, 16, 5] ≠ ([] : List Nat) := by
  decide

/-! ### C10: TradeSample::Read and the exact-buffer boundary -/

/-- Nonempty unsigned encodings. -/
theorem uleb128_encode_length_pos (v : Nat) : 0 < (uleb128_encode v).length := by
  rw [uleb128_encode_eq]
  split <;> simp

/-- Nonempty signed encodings. -/
theorem sleb128_encode_length_pos (v : Int) : 0 < (sleb128_encode v).length := by
  rw [sleb128_encode_eq]
  split <;> simp

/-- Decoding through a position wrapper only needs the dropped suffix. -/
theorem uleb128_decode_drop (buf : List Nat) (pos : Nat) (v : Nat)
    (rest : List Nat) (h : buf.drop pos = uleb128_encode v ++ rest) :
    uleb128_decode buf pos = (v, pos + (uleb128_encode v).length) := by
  unfold uleb128_decode
  rw [h, uleb128_decode_list_encode]

/-- Decoding through a position wrapper only needs the dropped suffix. -/
theorem sleb128_decode_drop (buf : List Nat) (pos : Nat) (v : Int)
    (rest : List Nat) (h : buf.drop pos = sleb128_encode v ++ rest) :
    sleb128_decode buf pos = (v, pos + (sleb128_encode v).length) := by
  unfold sleb128_decode
  rw [h, sleb128_decode_list_encode]

/-- The head of the dropped suffix is the byte at that position. -/
theorem getD_of_drop (l : List Nat) (pos : Nat) (x : Nat) (t : List Nat)
    (h : l.drop pos = x :: t) : l.getD pos 0 = x := by
  induction pos generalizing l with
  | zero => simp at h; simp [h]
  | succ p ih =>
    cases l with
    | nil => simp at h
    | cons a l' => exact ih l' (by simpa using h)

/-- Layout of an encoded trade record inside a larger buffer: each field of
`TradeSample_Write` decodes at its position, and the field positions chain up
to the record length. -/
theorem TradeSample_layout (delta : Bool) (time mask : Nat) (px qty : Int)
    (tid oid : Nat) (extra : List Nat) (hm : mask < 256) :
    uleb128_decode (TradeSample_Write delta time mask px qty tid oid ++ extra) 1 =
      (time, 1 + (uleb128_encode time).length) ∧
    (TradeSample_Write delta time mask px qty tid oid ++ extra).getD
      (1 + (uleb128_encode time).length) 0 = mask ∧
    sleb128_decode (TradeSample_Write delta time mask px qty tid oid ++ extra)
      (1 + (uleb128_encode time).length + 1) =
      (px, 1 + (uleb128_encode time).length + 1 + (sleb128_encode px).length) ∧
    (FieldMask_has_qty mask = true →
      sleb128_decode (TradeSample_Write delta time mask px qty tid oid ++ extra)
        (1 + (uleb128_encode time).length + 1 + (sleb128_encode px).length) =
        (qty, 1 + (uleb128_encode time).length + 1 + (sleb128_encode px).length +
          (sleb128_encode qty).length)) ∧
    (FieldMask_has_trade_id mask = true →
      uleb128_decode (TradeSample_Write delta time mask px qty tid oid ++ extra)
        (1 + (uleb128_encode time).length + 1 + (sleb128_encode px).length +
          (if FieldMask_has_qty mask then (sleb128_encode qty).length else 0)) =
        (tid, 1 + (uleb128_encode time).length + 1 + (sleb128_encode px).length +
          (if FieldMask_has_qty mask then (sleb128_encode qty).length else 0) +
          (uleb128_encode tid).length)) ∧
    (FieldMask_has_order_id mask = true →
      uleb128_decode (TradeSample_Write delta time mask px qty tid oid ++ extra)
        (1 + (uleb128_encode time).length + 1 + (sleb128_encode px).length +
          (if FieldMask_has_qty mask then (sleb128_encode qty).length else 0) +
          (if FieldMask_has_trade_id mask then (uleb128_encode tid).length else 0)) =
        (oid, 1 + (uleb128_encode time).length + 1 + (sleb128_encode px).length +
          (if FieldMask_has_qty mask then (sleb128_encode qty).length else 0) +
          (if FieldMask_has_trade_id mask then (uleb128_encode tid).length else 0) +
          (uleb128_encode oid).length)) ∧
    (TradeSample_Write delta time mask px qty tid oid).length =
      1 + (uleb128_encode time).length + 1 + (sleb128_encode px).length +
        (if FieldMask_has_qty mask then (sleb128_encode qty).length else 0) +
        (if FieldMask_has_trade_id mask then (uleb128_encode tid).length else 0) +
        (if FieldMask_has_order_id mask then (uleb128_encode oid).length else 0) := by
  have hm256 : mask % 256 = mask := Nat.mod_eq_of_lt hm
  refine ⟨?_, ?_, ?_, ?_, ?_, ?_, ?_⟩
  · have hdrop : (TradeSample_Write delta time mask px qty tid oid ++ extra).drop 1 =
        uleb128_encode time ++
          ([mask] ++ sleb128_encode px ++
            (if FieldMask_has_qty mask then sleb128_encode qty else []) ++
            (if FieldMask_has_trade_id mask then uleb128_encode tid else []) ++
            (if FieldMask_has_order_id mask then uleb128_encode oid else []) ++ extra) := by
      simp [TradeSample_Write, hm256, List.append_assoc]
    exact uleb128_decode_drop _ 1 time _ hdrop
  · refine getD_of_drop _ _ mask
      (sleb128_encode px ++
        (if FieldMask_has_qty mask then sleb128_encode qty else []) ++
        (if FieldMask_has_trade_id mask then uleb128_encode tid else []) ++
        (if FieldMask_has_order_id mask then uleb128_encode oid else []) ++ extra) ?_
    have hsplit : TradeSample_Write delta time mask px qty tid oid ++ extra =
        (StreamBase_byte 2 delta :: uleb128_encode time) ++
          (mask :: (sleb128_encode px ++
            (if FieldMask_has_qty mask then sleb128_encode qty else []) ++
            (if FieldMask_has_trade_id mask then uleb128_encode tid else []) ++
            (if FieldMask_has_order_id mask then uleb128_encode oid else []) ++ extra)) := by
      simp [TradeSample_Write, hm256, List.append_assoc]
    rw [hsplit, List.drop_left' (by simp [Nat.add_comm])]
  · have hsplit : TradeSample_Write delta time mask px qty tid oid ++ extra =
        (StreamBase_byte 2 delta :: (uleb128_encode time ++ [mask])) ++
          (sleb128_encode px ++
            ((if FieldMask_has_qty mask then sleb128_encode qty else []) ++
            (if FieldMask_has_trade_id mask then uleb128_encode tid else []) ++
            (if FieldMask_has_order_id mask then uleb128_encode oid else []) ++ extra)) := by
      simp [TradeSample_Write, hm256, List.append_assoc]
    have hdrop : (TradeSample_Write delta time mask px qty tid oid ++ extra).drop
        (1 + (uleb128_encode time).length + 1) =
        sleb128_encode px ++
          ((if FieldMask_has_qty mask then sleb128_encode qty else []) ++
          (if FieldMask_has_trade_id mask then uleb128_encode tid else []) ++
          (if FieldMask_has_order_id mask then uleb128_encode oid else []) ++ extra) := by
      rw [hsplit, List.drop_left' (by simp; omega)]
    exact sleb128_decode_drop _ _ px _ hdrop
  · intro hq
    have hsplit : TradeSample_Write delta time mask px qty tid oid ++ extra =
        (StreamBase_byte 2 delta :: (uleb128_encode time ++ [mask] ++
          sleb128_encode px)) ++
          (sleb128_encode qty ++
            ((if FieldMask_has_trade_id mask then uleb128_encode tid else []) ++
            (if FieldMask_has_order_id mask then uleb128_encode oid else []) ++ extra)) := by
      simp [TradeSample_Write, hm256, hq, List.append_assoc]
    have hdrop : (TradeSample_Write delta time mask px qty tid oid ++ extra).drop
        (1 + (uleb128_encode time).length + 1 + (sleb128_encode px).length) =
        sleb128_encode qty ++
          ((if FieldMask_has_trade_id mask then uleb128_encode tid else []) ++
          (if FieldMask_has_order_id mask then uleb128_encode oid else []) ++ extra) := by
      rw [hsplit, List.drop_left' (by simp; omega)]
    exact sleb128_decode_drop _ _ qty _ hdrop
  · intro ht
    refine uleb128_decode_drop _ _ tid
      ((if FieldMask_has_order_id mask then uleb128_encode oid else []) ++ extra) ?_
    by_cases hq : FieldMask_has_qty mask = true
    · have hsplit : TradeSample_Write delta time mask px qty tid oid ++ extra =
          (StreamBase_byte 2 delta :: (uleb128_encode time ++ [mask] ++
            sleb128_encode px ++ sleb128_encode qty)) ++
            (uleb128_encode tid ++
              ((if FieldMask_has_order_id mask then uleb128_encode oid else []) ++ extra)) := by
        simp [TradeSample_Write, hm256, hq, ht, List.append_assoc]
      rw [hsplit, List.drop_left' (by simp [hq]; omega)]
    · have hsplit : TradeSample_Write delta time mask px qty tid oid ++ extra =
          (StreamBase_byte 2 delta :: (uleb128_encode time ++ [mask] ++
            sleb128_encode px)) ++
            (uleb128_encode tid ++
              ((if FieldMask_has_order_id mask then uleb128_encode oid else []) ++ extra)) := by
        simp [TradeSample_Write, hm256, hq, ht, List.append_assoc]
      rw [hsplit, List.drop_left' (by simp [hq]; omega)]
  · intro ho
    refine uleb128_decode_drop _ _ oid extra ?_
    by_cases hq : FieldMask_has_qty mask = true <;>
      by_cases ht : FieldMask_has_trade_id mask = true
    · have hsplit : TradeSample_Write delta time mask px qty tid oid ++ extra =
          (StreamBase_byte 2 delta :: (uleb128_encode time ++ [mask] ++
            sleb128_encode px ++ sleb128_encode qty ++ uleb128_encode tid)) ++
            (uleb128_encode oid ++ extra) := by
        simp [TradeSample_Write, hm256, hq, ht, ho, List.append_assoc]
      rw [hsplit, List.drop_left' (by simp [hq, ht]; omega)]
    · have hsplit : TradeSample_Write delta time mask px qty tid oid ++ extra =
          (StreamBase_byte 2 delta :: (uleb128_encode time ++ [mask] ++
            sleb128_encode px ++ sleb128_encode qty)) ++
            (uleb128_encode oid ++ extra) := by
        simp [TradeSample_Write, hm256, hq, ht, ho, List.append_assoc]
      rw [hsplit, List.drop_left' (by simp [hq, ht]; omega)]
    · have hsplit : TradeSample_Write delta time mask px qty tid oid ++ extra =
          (StreamBase_byte 2 delta :: (uleb128_encode time ++ [mask] ++
            sleb128_encode px ++ uleb128_encode tid)) ++
            (uleb128_encode oid ++ extra) := by
        simp [TradeSample_Write, hm256, hq, ht, ho, List.append_assoc]
      rw [hsplit, List.drop_left' (by simp [hq, ht]; omega)]
    · have hsplit : TradeSample_Write delta time mask px qty tid oid ++ extra =
          (StreamBase_byte 2 delta :: (uleb128_encode time ++ [mask] ++
            sleb128_encode px)) ++
            (uleb128_encode oid ++ extra) := by
        simp [TradeSample_Write, hm256, hq, ht, ho, List.append_assoc]
      rw [hsplit, List.drop_left' (by simp [hq, ht]; omega)]
  · simp only [TradeSample_Write, List.length_cons, List.length_append]
    split_ifs <;> simp <;> omega

/-- C10.  `TradeSample::Read` on a buffer holding exactly one complete encoded
trade record reports "need more input" (consuming nothing and leaving the
last-price reference untouched), while the same record followed by at least
one extra byte decodes successfully, consuming exactly the record. -/
theorem C10_trade_read_requires_lookahead (delta isDelta : Bool) (lastPx : Int)
    (time mask : Nat) (px qty : Int) (tid oid : Nat) (c : Nat) (hm : mask < 256) :
    TradeSample_Read (TradeSample_Write delta time mask px qty tid oid)
        (TradeSample_Write delta time mask px qty tid oid).length isDelta lastPx =
      .needMore ∧
    TradeSample_Read (TradeSample_Write delta time mask px qty tid oid ++ [c])
        ((TradeSample_Write delta time mask px qty tid oid).length + 1) isDelta lastPx =
      .ok time mask (if isDelta then px + lastPx else px)
        (if FieldMask_has_qty mask then qty else 0)
        (if FieldMask_has_trade_id mask then tid else 0)
        (if FieldMask_has_order_id mask then oid else 0)
        (if isDelta then px + lastPx else px)
        (TradeSample_Write delta time mask px qty tid oid).length := by
  obtain ⟨a1, b1, c1, d1, e1, f1, g1⟩ :=
    TradeSample_layout delta time mask px qty tid oid [] hm
  obtain ⟨a2, b2, c2, d2, e2, f2, _⟩ :=
    TradeSample_layout delta time mask px qty tid oid [c] hm
  rw [List.append_nil] at a1 b1 c1 d1 e1 f1
  have hm256 : mask % 256 = mask := Nat.mod_eq_of_lt hm
  have hu := uleb128_encode_length_pos time
  have hp := sleb128_encode_length_pos px
  have hq2 := sleb128_encode_length_pos qty
  have ht2 := uleb128_encode_length_pos tid
  have ho2 := uleb128_encode_length_pos oid
  cases hQ : FieldMask_has_qty mask <;> cases hT : FieldMask_has_trade_id mask <;>
    cases hO : FieldMask_has_order_id mask <;>
  · simp only [hQ, hT, hO, if_true, if_false, Bool.false_eq_true, eq_self_iff_true,
      add_zero, forall_const] at d1 e1 f1 d2 e2 f2 g1 ⊢
    constructor
    · unfold TradeSample_Read
      simp only [a1, b1, c1, hm256, hQ, hT, hO, Bool.false_eq_true, eq_self_iff_true,
        if_true, if_false]
      try simp only [d1, e1, f1]
      split_ifs <;> first | rfl | (exfalso; omega)
    · unfold TradeSample_Read
      simp only [a2, b2, c2, hm256, hQ, hT, hO, Bool.false_eq_true, eq_self_iff_true,
        if_true, if_false]
      try simp only [d2, e2, f2]
      split_ifs <;> first | (exfalso; omega) | (rw [g1]) | rfl

/-- Witness for C10: a full-delta trade at time delta 5 with mask `0x10`
(quantity present), price 100, quantity 7. -/
theorem C10_trade_read_requires_lookahead_witness :
    TradeSample_Read (TradeSample_Write false 5 16 100 7 0 0)
        (TradeSample_Write false 5 16 100 7 0 0).length false 0 =
      .needMore ∧
    TradeSample_Read (TradeSample_Write false 5 16 100 7 0 0 ++ [0])
        ((TradeSample_Write false 5 16 100 7 0 0).length + 1) false 0 =
      .ok 5 16 (if false = true then 100 + 0 else 100)
        (if FieldMask_has_qty 16 then 7 else 0)
        (if FieldMask_has_trade_id 16 then 0 else 0)
        (if FieldMask_has_order_id 16 then 0 else 0)
        (if false = true then 100 + 0 else 100)
        (TradeSample_Write false 5 16 100 7 0 0).length :=
  C10_trade_read_requires_lookahead false false 0 5 16 100 7 0 0 0 (by decide)

/-! ### C7: the reference-price anchor of WriteQuotes -/

/-- C7.  With no bids and two asks `[(100, 10), (105, 20)]`, the writer's
anchor is `asks[ask_cnt-1] = (105, 20)`, not the first ask `asks[0] =
(100, 10)` that the claim (and the code's own comment) requires. -/
theorem C7_ask_only_anchor_is_last_ask :
    WriteQuotes_anchor (fun _ => (0, 0))
        (fun i => if i = 0 then (100, 10) else if i = 1 then (105, 20) else (0, 0))
        0 2 = some (105, 20) ∧
    (if (0 : Nat) = 0 then ((100 : Int), (10 : Int)) else if (0 : Nat) = 1
      then (105, 20) else (0, 0)) = (100, 10) ∧
    ((105, 20) : Int × Int) ≠ (100, 10) := by
  decide

/-! ### C4: out-of-order rejection -/

/-- C4 counterexample.  With the last written timestamp at 1 000 000 µs, a
`WriteQuotes` call at 999 999 µs carrying zero bid and zero ask levels
returns without any error (and without writing), although the claim requires
an OutOfOrder failure for every strictly smaller timestamp. -/
theorem C4_counterexample_empty_quote_skips_check :
    (BaseSecDBFileIO_WriteQuotes 10 ⟨[], 1000000, 1, 0, 2, none, none, ⟨[]⟩⟩
        999999 (fun _ => (0, 0)) 0 (fun _ => (0, 0)) 0).2 = none ∧
    (999999 : Int) < 1000000 := by
  decide

/-- C4 (amended).  For `WriteQuotes` calls with valid per-side counts and at
least one level, and for every `WriteTrade` call, an OutOfOrder error is
raised exactly when the timestamp is strictly below the last written one
(equality is accepted), and on that error the file bytes are unchanged. -/
theorem C4_out_of_order_iff (maxDepth : Nat) (s : WState) (ts : Int)
    (bids asks : Nat → Int × Int) (bidCnt askCnt : Nat)
    (hb : bidCnt ≤ maxDepth) (ha : askCnt ≤ maxDepth) (hn : 0 < bidCnt + askCnt)
    (side : Bool) (px : Int) (qty : Nat) (aggr ordId tradeId : Nat) :
    ((BaseSecDBFileIO_WriteQuotes maxDepth s ts bids bidCnt asks askCnt).2 =
        some .outOfOrder ↔ ts < s.m_last_ts) ∧
    ((BaseSecDBFileIO_WriteQuotes maxDepth s ts bids bidCnt asks askCnt).2 =
        some .outOfOrder →
      (BaseSecDBFileIO_WriteQuotes maxDepth s ts bids bidCnt asks askCnt).1.m_file =
        s.m_file) ∧
    ((BaseSecDBFileIO_WriteTrade s ts side px qty aggr ordId tradeId).2 =
        some .outOfOrder ↔ ts < s.m_last_ts) ∧
    ((BaseSecDBFileIO_WriteTrade s ts side px qty aggr ordId tradeId).2 =
        some .outOfOrder →
      (BaseSecDBFileIO_WriteTrade s ts side px qty aggr ordId tradeId).1.m_file =
        s.m_file) := by
  have hquotes : ∀ (P : (WState × Option WriteErr) → Prop),
      (ts < s.m_last_ts → P (s, some .outOfOrder)) →
      (¬(ts < s.m_last_ts) → ∀ r, P (r, none)) →
      P (BaseSecDBFileIO_WriteQuotes maxDepth s ts bids bidCnt asks askCnt) := by
    intro P hyes hno
    unfold BaseSecDBFileIO_WriteQuotes
    rw [if_neg (by omega)]
    unfold WriteQuotes_anchor
    by_cases hbc : 0 < bidCnt
    · rw [if_pos hbc]
      dsimp only
      by_cases hts : ts < s.m_last_ts
      · rw [if_pos hts]; exact hyes hts
      · rw [if_neg hts]; exact hno hts _
    · rw [if_neg hbc, if_pos (by omega)]
      dsimp only
      by_cases hts : ts < s.m_last_ts
      · rw [if_pos hts]; exact hyes hts
      · rw [if_neg hts]; exact hno hts _
  have htrade : ∀ (P : (WState × Option WriteErr) → Prop),
      (ts < s.m_last_ts → P (s, some .outOfOrder)) →
      (¬(ts < s.m_last_ts) → ∀ r, P (r, none)) →
      P (BaseSecDBFileIO_WriteTrade s ts side px qty aggr ordId tradeId) := by
    intro P hyes hno
    unfold BaseSecDBFileIO_WriteTrade
    by_cases hts : ts < s.m_last_ts
    · rw [if_pos hts]; exact hyes hts
    · rw [if_neg hts]; exact hno hts _
  refine ⟨?_, ?_, ?_, ?_⟩
  · exact hquotes (fun r => r.2 = some .outOfOrder ↔ ts < s.m_last_ts)
      (fun h => by simpa using h) (fun h r => by simpa using h)
  · exact hquotes (fun r => r.2 = some .outOfOrder → r.1.m_file = s.m_file)
      (fun h _ => rfl) (fun h r hc => by simp at hc)
  · exact htrade (fun r => r.2 = some .outOfOrder ↔ ts < s.m_last_ts)
      (fun h => by simpa using h) (fun h r => by simpa using h)
  · exact htrade (fun r => r.2 = some .outOfOrder → r.1.m_file = s.m_file)
      (fun h _ => rfl) (fun h r hc => by simp at hc)

/-- Witness for C4: with last timestamp 1 000 000 µs, a one-level quote and a
trade at 999 999 µs are both rejected as out-of-order with the file bytes
unchanged. -/
theorem C4_out_of_order_iff_witness :
    (BaseSecDBFileIO_WriteQuotes 10 ⟨[7], 1000000, 1, 0, 2, none, none, ⟨[]⟩⟩
        999999 (fun _ => (100, 10)) 1 (fun _ => (0, 0)) 0).2 =
      some .outOfOrder ∧
    (BaseSecDBFileIO_WriteQuotes 10 ⟨[7], 1000000, 1, 0, 2, none, none, ⟨[]⟩⟩
        999999 (fun _ => (100, 10)) 1 (fun _ => (0, 0)) 0).1.m_file = [7] ∧
    (BaseSecDBFileIO_WriteTrade ⟨[7], 1000000, 1, 0, 2, none, none, ⟨[]⟩⟩
        999999 false 100 1 0 0 0).2 = some .outOfOrder := by
  have h := C4_out_of_order_iff 10 ⟨[7], 1000000, 1, 0, 2, none, none, ⟨[]⟩⟩
    999999 (fun _ => (100, 10)) (fun _ => (0, 0)) 1 0 (by decide) (by decide)
    (by decide) false 100 1 0 0 0
  exact ⟨h.1.mpr (by decide), h.2.1 (h.1.mpr (by decide)), h.2.2.1.mpr (by decide)⟩

/-- The packed quote result is never the count error. -/
theorem QuoteSample_pack_ne_tooManyLevels (time bid ask : Nat) (fpx q0 : Int)
    (L : Option (List (Int × Int) × Nat)) :
    QuoteSample_pack time bid ask fpx q0 L ≠ .tooManyLevels := by
  cases L with
  | none => simp [QuoteSample_pack]
  | some p =>
    cases p
    simp [QuoteSample_pack]

/-! ### C8: the depth limit is checked per side, not on the sum -/

/-- C8 counterexample.  With `MaxDepth = 5`, a quote carrying 5 bids and 1 ask
(`bid_count + ask_count = MaxDepth + 1`) is accepted by the writer without
any error, although the claim requires a Format rejection. -/
theorem C8_counterexample_sum_above_maxdepth_accepted :
    (BaseSecDBFileIO_WriteQuotes 5 ⟨[], 0, 0, 0, 0, none, none, ⟨[]⟩⟩
        3600000000 (fun i => ((100 : Int) - i, 10)) 5
        (fun i => ((101 : Int) + i, 10)) 1).2 = none ∧
    5 + 1 = 5 + 1 := by
  decide

/-- C8 (amended).  The writer raises its count error exactly when one side
exceeds `MaxDepth` (so any split with `bid_count + ask_count ≤ MaxDepth` is
accepted, but so are sums up to `2 * MaxDepth`); the decoder likewise throws
exactly when one decoded nibble count exceeds `MaxDepth` on a buffer that got
past the time field. -/
theorem C8_depth_check_is_per_side (maxDepth : Nat) (s : WState) (ts : Int)
    (bids asks : Nat → Int × Int) (bidCnt askCnt : Nat)
    (buf : List Nat) (sz : Nat) (isDelta : Bool) (lastPx : Int) :
    ((BaseSecDBFileIO_WriteQuotes maxDepth s ts bids bidCnt asks askCnt).2 =
        some .tooManyLevels ↔ maxDepth < bidCnt ∨ maxDepth < askCnt) ∧
    (bidCnt + askCnt ≤ maxDepth →
      (BaseSecDBFileIO_WriteQuotes maxDepth s ts bids bidCnt asks askCnt).2 ≠
        some .tooManyLevels) ∧
    (QuoteSample_Read maxDepth buf sz isDelta lastPx = .tooManyLevels ↔
      ¬(sz ≤ (uleb128_decode buf 1).2) ∧
        (maxDepth < buf.getD (uleb128_decode buf 1).2 0 % 256 % 16 ∨
          maxDepth < buf.getD (uleb128_decode buf 1).2 0 % 256 / 16 % 16)) := by
  have hwriter :
      (BaseSecDBFileIO_WriteQuotes maxDepth s ts bids bidCnt asks askCnt).2 =
        some .tooManyLevels ↔ maxDepth < bidCnt ∨ maxDepth < askCnt := by
    unfold BaseSecDBFileIO_WriteQuotes
    by_cases hc : maxDepth < bidCnt ∨ maxDepth < askCnt
    · rw [if_pos hc]
      simp [hc]
    · rw [if_neg hc]
      unfold WriteQuotes_anchor
      by_cases hbc : 0 < bidCnt
      · rw [if_pos hbc]
        dsimp only
        by_cases hts : ts < s.m_last_ts
        · rw [if_pos hts]; simp [hc]
        · rw [if_neg hts]; simp [hc]
      · rw [if_neg hbc]
        by_cases hac : 0 < askCnt
        · rw [if_pos hac]
          dsimp only
          by_cases hts : ts < s.m_last_ts
          · rw [if_pos hts]; simp [hc]
          · rw [if_neg hts]; simp [hc]
        · rw [if_neg hac]
          simp [hc]
  refine ⟨hwriter, ?_, ?_⟩
  · intro hsum hcon
    exact absurd (hwriter.mp hcon) (by omega)
  · unfold QuoteSample_Read
    by_cases h1 : sz ≤ (uleb128_decode buf 1).2
    · simp [h1]
    · rw [if_neg h1]
      by_cases h2 : maxDepth < buf.getD (uleb128_decode buf 1).2 0 % 256 % 16 ∨
          maxDepth < buf.getD (uleb128_decode buf 1).2 0 % 256 / 16 % 16
      · rw [if_pos h2]
        simp only [eq_self_iff_true, true_iff]
        exact ⟨h1, h2⟩
      · rw [if_neg h2]
        constructor
        · intro hcon
          exfalso
          revert hcon
          split <;> split
          all_goals first
            | (exact fun hcon => QuoteSample_pack_ne_tooManyLevels _ _ _ _ _ _ hcon)
            | simp
        · intro hcon
          exact absurd hcon.2 h2

/-- Witness for C8: with `MaxDepth = 5` and a 3-bid/2-ask quote (sum 5) at a
fresh writer state, the count error is not raised; the decoder characterization
is instantiated on the corresponding encoded record. -/
theorem C8_depth_check_is_per_side_witness :
    ((BaseSecDBFileIO_WriteQuotes 5 ⟨[], 0, 0, 0, 0, none, none, ⟨[]⟩⟩
        3600000000 (fun i => ((100 : Int) - i, 10)) 3
        (fun i => ((101 : Int) + i, 10)) 2).2 =
      some .tooManyLevels ↔ 5 < 3 ∨ 5 < 2) ∧
    (QuoteSample_Read 5 [1, 0, 35, 2, 4, 1, 2, 1, 2, 1, 2, 1, 2] 13 false 0 =
        .tooManyLevels ↔
      ¬(13 ≤ (uleb128_decode [1, 0, 35, 2, 4, 1, 2, 1, 2, 1, 2, 1, 2] 1).2) ∧
        (5 < [1, 0, 35, 2, 4, 1, 2, 1, 2, 1, 2, 1, 2].getD
            (uleb128_decode [1, 0, 35, 2, 4, 1, 2, 1, 2, 1, 2, 1, 2] 1).2 0 % 256 % 16 ∨
          5 < [1, 0, 35, 2, 4, 1, 2, 1, 2, 1, 2, 1, 2].getD
            (uleb128_decode [1, 0, 35, 2, 4, 1, 2, 1, 2, 1, 2, 1, 2] 1).2 0 % 256 / 16 % 16)) := by
  have h := C8_depth_check_is_per_side 5 ⟨[], 0, 0, 0, 0, none, none, ⟨[]⟩⟩
    3600000000 (fun i => ((100 : Int) - i, 10)) (fun i => ((101 : Int) + i, 10)) 3 2
    [1, 0, 35, 2, 4, 1, 2, 1, 2, 1, 2, 1, 2] 13 false 0
  exact ⟨h.1, h.2.2⟩

/-! ### C6: quote round-trip -/

/-- Decoding the difference-encoded level list restores the original absolute
levels by cumulative summation: the level loop of `QuoteSample::Read` run over
the bytes `QuoteSample::Write` produced for `diffLevels prev l` yields `l`
itself and stops at the end of the encoding. -/
theorem QuoteSample_Read_levels_spec (l : List (Int × Int)) :
    ∀ (buf : List Nat) (sz pos : Nat) (prev : Int) (rest : List Nat),
      buf.drop pos =
        ((diffLevels prev l).flatMap fun p =>
          sleb128_encode p.1 ++ sleb128_encode p.2) ++ rest →
      pos + ((diffLevels prev l).flatMap fun p =>
          sleb128_encode p.1 ++ sleb128_encode p.2).length ≤ sz →
      QuoteSample_Read_levels buf sz l.length pos prev =
        some (l, pos + ((diffLevels prev l).flatMap fun p =>
          sleb128_encode p.1 ++ sleb128_encode p.2).length) := by
  induction l with
  | nil =>
    intro buf sz pos prev rest hdrop hsz
    simp [QuoteSample_Read_levels, diffLevels]
  | cons p t ih =>
    intro buf sz pos prev rest hdrop hsz
    obtain ⟨px, q⟩ := p
    have hdiff : diffLevels prev ((px, q) :: t) =
        (px - prev, q) :: diffLevels px t := rfl
    rw [hdiff] at hdrop hsz ⊢
    simp only [List.flatMap_cons, List.append_assoc, List.length_append] at hdrop hsz ⊢
    have hdp := sleb128_decode_drop buf pos (px - prev)
      (sleb128_encode q ++ (((diffLevels px t).flatMap fun p =>
        sleb128_encode p.1 ++ sleb128_encode p.2) ++ rest)) hdrop
    have hdrop2 : buf.drop (pos + (sleb128_encode (px - prev)).length) =
        sleb128_encode q ++ (((diffLevels px t).flatMap fun p =>
          sleb128_encode p.1 ++ sleb128_encode p.2) ++ rest) := by
      rw [← List.drop_drop, hdrop, List.drop_left]
    have hdq := sleb128_decode_drop buf
      (pos + (sleb128_encode (px - prev)).length) q
      (((diffLevels px t).flatMap fun p =>
        sleb128_encode p.1 ++ sleb128_encode p.2) ++ rest) hdrop2
    have hdrop3 : buf.drop (pos + (sleb128_encode (px - prev)).length +
        (sleb128_encode q).length) =
        ((diffLevels px t).flatMap fun p =>
          sleb128_encode p.1 ++ sleb128_encode p.2) ++ rest := by
      rw [← List.drop_drop, hdrop2, List.drop_left]
    show QuoteSample_Read_levels buf sz (t.length + 1) pos prev = _
    rw [QuoteSample_Read_levels]
    rw [hdp, hdq]
    simp only []
    rw [if_neg (by omega)]
    have hpx : prev + (px - prev) = px := by ring
    rw [hpx]
    rw [ih buf sz (pos + (sleb128_encode (px - prev)).length +
      (sleb128_encode q).length) px rest hdrop3 (by omega)]
    simp only [Option.some.injEq, Prod.mk.injEq]
    exact ⟨trivial, by omega⟩

/-- The anchor level followed by the writer's traversal tail is exactly the
claimed traversal: bids from deepest to best, then asks from best outward. -/
theorem WriteQuotes_traversal (bids asks : Nat → Int × Int)
    (bidCnt askCnt : Nat) (hbc : 0 < bidCnt) :
    (NormalizePx (bids (bidCnt - 1)).1, (bids (bidCnt - 1)).2) ::
        WriteQuotes_tail bids asks bidCnt askCnt =
      ((List.range bidCnt).map fun j =>
        ((bids (bidCnt - 1 - j)).1, (bids (bidCnt - 1 - j)).2)) ++
        ((List.range askCnt).map fun j => ((asks j).1, (asks j).2)) := by
  unfold WriteQuotes_tail
  rw [if_pos hbc]
  simp only [NormalizePx]
  obtain ⟨n, rfl⟩ : ∃ n, bidCnt = n + 1 := ⟨bidCnt - 1, by omega⟩
  rw [List.range_succ_eq_map]
  simp only [List.map_cons, List.map_map, Nat.add_sub_cancel, Nat.sub_zero,
    List.cons_append]
  congr 1
  congr 1
  apply List.map_congr_left
  intro j hj
  have harg : n + 1 - 2 - j = n - (j + 1) := by omega
  have harg2 : n - 1 - j = n - (j + 1) := by omega
  simp [Function.comp, harg, harg2]

/-- Bitwise or of a high nibble shifted by four and a low nibble is their
sum. -/
theorem lor_mul16 (a b : Nat) (ha : a ≤ 15) (hb : b ≤ 15) :
    Nat.lor (a * 16) b = 16 * a + b := by
  interval_cases a <;> interval_cases b <;> decide

/-- The writer's difference-encoded book for a nonempty traversal has one
entry per level. -/
theorem WriteQuotes_tail_length (bids asks : Nat → Int × Int)
    (bidCnt askCnt : Nat) (hbc : 0 < bidCnt) :
    (WriteQuotes_tail bids asks bidCnt askCnt).length = bidCnt - 1 + askCnt := by
  unfold WriteQuotes_tail
  rw [if_pos hbc]
  simp

/-- Evaluation of `QuoteSample::Read` on one explicitly laid out encoded
quote record. -/
theorem QuoteSample_Read_eval (maxDepth tn bidCnt askCnt : Nat) (d : Bool)
    (lp d0 q0 fp : Int) (tail : List (Int × Int))
    (hfp : fp = if d then d0 + lp else d0)
    (hbc : 0 < bidCnt) (hbd : bidCnt ≤ maxDepth) (had : askCnt ≤ maxDepth)
    (hd15 : maxDepth ≤ 15) (hlen : tail.length = bidCnt - 1 + askCnt) :
    QuoteSample_Read maxDepth
        (StreamBase_byte 1 d ::
          (uleb128_encode tn ++
            ((16 * askCnt + bidCnt) ::
              (sleb128_encode d0 ++
                (sleb128_encode q0 ++
                  ((diffLevels fp tail).flatMap fun p =>
                    sleb128_encode p.1 ++ sleb128_encode p.2))))))
        (StreamBase_byte 1 d ::
          (uleb128_encode tn ++
            ((16 * askCnt + bidCnt) ::
              (sleb128_encode d0 ++
                (sleb128_encode q0 ++
                  ((diffLevels fp tail).flatMap fun p =>
                    sleb128_encode p.1 ++ sleb128_encode p.2)))))).length d lp =
      .ok tn bidCnt askCnt ((fp, q0) :: tail) fp
        (StreamBase_byte 1 d ::
          (uleb128_encode tn ++
            ((16 * askCnt + bidCnt) ::
              (sleb128_encode d0 ++
                (sleb128_encode q0 ++
                  ((diffLevels fp tail).flatMap fun p =>
                    sleb128_encode p.1 ++ sleb128_encode p.2)))))).length := by
  set E := ((diffLevels fp tail).flatMap fun p =>
    sleb128_encode p.1 ++ sleb128_encode p.2) with hE
  set B := StreamBase_byte 1 d ::
    (uleb128_encode tn ++
      ((16 * askCnt + bidCnt) ::
        (sleb128_encode d0 ++ (sleb128_encode q0 ++ E)))) with hBdef
  have hld0 := sleb128_encode_length_pos d0
  have hlq0 := sleb128_encode_length_pos q0
  have hlenB : B.length = 1 + (uleb128_encode tn).length + 1 +
      (sleb128_encode d0).length + ((sleb128_encode q0).length + E.length) := by
    rw [hBdef]
    simp
    omega
  have ha : uleb128_decode B 1 = (tn, 1 + (uleb128_encode tn).length) := by
    refine uleb128_decode_drop B 1 tn
      ((16 * askCnt + bidCnt) :: (sleb128_encode d0 ++ (sleb128_encode q0 ++ E))) ?_
    rw [hBdef]
    rfl
  have hbyte : B.getD (1 + (uleb128_encode tn).length) 0 = 16 * askCnt + bidCnt := by
    refine getD_of_drop B _ _ (sleb128_encode d0 ++ (sleb128_encode q0 ++ E)) ?_
    have : B = (StreamBase_byte 1 d :: uleb128_encode tn) ++
        ((16 * askCnt + bidCnt) :: (sleb128_encode d0 ++ (sleb128_encode q0 ++ E))) := by
      rw [hBdef]; rfl
    rw [this, List.drop_left' (by simp [Nat.add_comm])]
  have hc : sleb128_decode B (1 + (uleb128_encode tn).length + 1) =
      (d0, 1 + (uleb128_encode tn).length + 1 + (sleb128_encode d0).length) := by
    refine sleb128_decode_drop B _ d0 (sleb128_encode q0 ++ E) ?_
    have : B = (StreamBase_byte 1 d :: (uleb128_encode tn ++ [16 * askCnt + bidCnt])) ++
        (sleb128_encode d0 ++ (sleb128_encode q0 ++ E)) := by
      rw [hBdef]; simp
    rw [this, List.drop_left' (by simp; omega)]
  have hd2 : sleb128_decode B
        (1 + (uleb128_encode tn).length + 1 + (sleb128_encode d0).length) =
      (q0, 1 + (uleb128_encode tn).length + 1 + (sleb128_encode d0).length +
        (sleb128_encode q0).length) := by
    refine sleb128_decode_drop B _ q0 E ?_
    have : B = (StreamBase_byte 1 d :: (uleb128_encode tn ++
        ((16 * askCnt + bidCnt) :: sleb128_encode d0))) ++
        (sleb128_encode q0 ++ E) := by
      rw [hBdef]; simp
    rw [this, List.drop_left' (by simp; omega)]
  have hdropE : B.drop (1 + (uleb128_encode tn).length + 1 +
      (sleb128_encode d0).length + (sleb128_encode q0).length) = E ++ [] := by
    have : B = (StreamBase_byte 1 d :: (uleb128_encode tn ++
        ((16 * askCnt + bidCnt) :: (sleb128_encode d0 ++ sleb128_encode q0)))) ++ E := by
      rw [hBdef]; simp
    rw [this, List.drop_left' (by simp; omega), List.append_nil]
  have he := QuoteSample_Read_levels_spec tail B B.length
    (1 + (uleb128_encode tn).length + 1 + (sleb128_encode d0).length +
      (sleb128_encode q0).length) fp [] (by rw [← hE]; exact hdropE)
    (by rw [← hE]; omega)
  rw [← hE] at he
  unfold QuoteSample_Read
  rw [ha]
  simp only []
  rw [if_neg (by omega)]
  rw [hbyte]
  have hb256 : (16 * askCnt + bidCnt) % 256 = 16 * askCnt + bidCnt :=
    Nat.mod_eq_of_lt (by omega)
  have hbb : (16 * askCnt + bidCnt) % 16 = bidCnt := by omega
  have hba : (16 * askCnt + bidCnt) / 16 % 16 = askCnt := by omega
  rw [hb256, hbb, hba]
  rw [if_neg (by omega)]
  rw [hc, hd2]
  simp only []
  rw [← hfp]
  have hksucc : bidCnt + askCnt = tail.length + 1 := by omega
  rw [hksucc]
  simp only []
  rw [hfp] at he ⊢
  rw [he]
  unfold QuoteSample_pack
  simp only [Option.some.injEq]
  congr 1
  omega

/-- Round trip of one encoded quote record: decoding the bytes that
`QuoteSample::Write` produces for the difference-encoded book built by
`WriteQuotes` — with the same delta flag and the same last-quote-price
reference the writer used — restores the absolute levels `(fp, q0) :: tail`,
returns the level-0 price as the new reference, and consumes the record. -/
theorem QuoteSample_roundtrip (maxDepth tn bidCnt askCnt : Nat)
    (lq : Option Int) (fp q0 : Int) (tail : List (Int × Int))
    (hbc : 0 < bidCnt) (hbd : bidCnt ≤ maxDepth) (had : askCnt ≤ maxDepth)
    (hd15 : maxDepth ≤ 15) (hlen : tail.length = bidCnt - 1 + askCnt) :
    QuoteSample_Read maxDepth
        (QuoteSample_Write lq.isSome tn bidCnt askCnt (WriteQuotes_book lq fp q0 tail))
        (QuoteSample_Write lq.isSome tn bidCnt askCnt
          (WriteQuotes_book lq fp q0 tail)).length
        lq.isSome (lq.getD 0) =
      .ok tn bidCnt askCnt ((fp, q0) :: tail) fp
        (QuoteSample_Write lq.isSome tn bidCnt askCnt
          (WriteQuotes_book lq fp q0 tail)).length := by
  have hb15 : bidCnt ≤ 15 := by omega
  have ha15 : askCnt ≤ 15 := by omega
  have hcnt : Nat.lor (askCnt * 16) bidCnt % 256 = 16 * askCnt + bidCnt := by
    rw [lor_mul16 askCnt bidCnt ha15 hb15]
    exact Nat.mod_eq_of_lt (by omega)
  cases lq with
  | none =>
    have hW : QuoteSample_Write (Option.isSome (none : Option Int)) tn bidCnt askCnt
        (WriteQuotes_book none fp q0 tail) =
        StreamBase_byte 1 false ::
          (uleb128_encode tn ++
            ((16 * askCnt + bidCnt) ::
              (sleb128_encode fp ++
                (sleb128_encode q0 ++
                  ((diffLevels fp tail).flatMap fun p =>
                    sleb128_encode p.1 ++ sleb128_encode p.2))))) := by
      unfold QuoteSample_Write
      rw [if_neg (by omega), hcnt]
      simp [WriteQuotes_book, List.append_assoc]
    rw [hW]
    exact QuoteSample_Read_eval maxDepth tn bidCnt askCnt false 0 fp q0 fp tail
      (by simp) hbc hbd had hd15 hlen
  | some lqv =>
    have hW : QuoteSample_Write (Option.isSome (some lqv)) tn bidCnt askCnt
        (WriteQuotes_book (some lqv) fp q0 tail) =
        StreamBase_byte 1 true ::
          (uleb128_encode tn ++
            ((16 * askCnt + bidCnt) ::
              (sleb128_encode (fp - lqv) ++
                (sleb128_encode q0 ++
                  ((diffLevels fp tail).flatMap fun p =>
                    sleb128_encode p.1 ++ sleb128_encode p.2))))) := by
      unfold QuoteSample_Write
      rw [if_neg (by omega), hcnt]
      simp [WriteQuotes_book, List.append_assoc]
    rw [hW]
    exact QuoteSample_Read_eval maxDepth tn bidCnt askCnt true lqv (fp - lqv) q0 fp
      tail (by simp) hbc hbd had hd15 hlen

/-- C6 (amended).  A `WriteQuotes` call with at least one bid level, valid
per-side counts and `MaxDepth ≤ 15` succeeds, appends one encoded
`QuoteSample` after the (possible) `SecondsSample`, and decoding that record
with the writer's delta flag and last-quote-price reference restores exactly
the normalized level sequence deepest-bid..best-bid then best-ask..outward,
returning the anchor price as the new reference. -/
theorem C6_quote_roundtrip (maxDepth : Nat) (s : WState) (ts : Int)
    (bids asks : Nat → Int × Int) (bidCnt askCnt : Nat)
    (hbc : 0 < bidCnt) (hbd : bidCnt ≤ maxDepth) (had : askCnt ≤ maxDepth)
    (hd15 : maxDepth ≤ 15) (hts : s.m_last_ts ≤ ts) :
    (BaseSecDBFileIO_WriteQuotes maxDepth s ts bids bidCnt asks askCnt).2 = none ∧
    (BaseSecDBFileIO_WriteQuotes maxDepth s ts bids bidCnt asks askCnt).1.m_file =
      (WriteSeconds s ts).2.m_file ++
        QuoteSample_Write (WriteSeconds s ts).2.m_last_quote_px.isSome
          (Int.emod (if (WriteSeconds s ts).1 then (WriteSeconds s ts).2.m_last_usec
            else (WriteSeconds s ts).2.m_last_usec - s.m_last_usec) 4294967296).toNat
          bidCnt askCnt
          (WriteQuotes_book (WriteSeconds s ts).2.m_last_quote_px
            (NormalizePx (bids (bidCnt - 1)).1) (bids (bidCnt - 1)).2
            (WriteQuotes_tail bids asks bidCnt askCnt)) ∧
    QuoteSample_Read maxDepth
        (QuoteSample_Write (WriteSeconds s ts).2.m_last_quote_px.isSome
          (Int.emod (if (WriteSeconds s ts).1 then (WriteSeconds s ts).2.m_last_usec
            else (WriteSeconds s ts).2.m_last_usec - s.m_last_usec) 4294967296).toNat
          bidCnt askCnt
          (WriteQuotes_book (WriteSeconds s ts).2.m_last_quote_px
            (NormalizePx (bids (bidCnt - 1)).1) (bids (bidCnt - 1)).2
            (WriteQuotes_tail bids asks bidCnt askCnt)))
        (QuoteSample_Write (WriteSeconds s ts).2.m_last_quote_px.isSome
          (Int.emod (if (WriteSeconds s ts).1 then (WriteSeconds s ts).2.m_last_usec
            else (WriteSeconds s ts).2.m_last_usec - s.m_last_usec) 4294967296).toNat
          bidCnt askCnt
          (WriteQuotes_book (WriteSeconds s ts).2.m_last_quote_px
            (NormalizePx (bids (bidCnt - 1)).1) (bids (bidCnt - 1)).2
            (WriteQuotes_tail bids asks bidCnt askCnt))).length
        (WriteSeconds s ts).2.m_last_quote_px.isSome
        ((WriteSeconds s ts).2.m_last_quote_px.getD 0) =
      .ok (Int.emod (if (WriteSeconds s ts).1 then (WriteSeconds s ts).2.m_last_usec
            else (WriteSeconds s ts).2.m_last_usec - s.m_last_usec) 4294967296).toNat
        bidCnt askCnt
        (((List.range bidCnt).map fun j =>
            ((bids (bidCnt - 1 - j)).1, (bids (bidCnt - 1 - j)).2)) ++
          ((List.range askCnt).map fun j => ((asks j).1, (asks j).2)))
        (NormalizePx (bids (bidCnt - 1)).1)
        (QuoteSample_Write (WriteSeconds s ts).2.m_last_quote_px.isSome
          (Int.emod (if (WriteSeconds s ts).1 then (WriteSeconds s ts).2.m_last_usec
            else (WriteSeconds s ts).2.m_last_usec - s.m_last_usec) 4294967296).toNat
          bidCnt askCnt
          (WriteQuotes_book (WriteSeconds s ts).2.m_last_quote_px
            (NormalizePx (bids (bidCnt - 1)).1) (bids (bidCnt - 1)).2
            (WriteQuotes_tail bids asks bidCnt askCnt))).length := by
  refine ⟨?_, ?_, ?_⟩
  · unfold BaseSecDBFileIO_WriteQuotes
    rw [if_neg (by omega)]
    unfold WriteQuotes_anchor
    rw [if_pos hbc]
    dsimp only
    rw [if_neg (by omega)]
  · unfold BaseSecDBFileIO_WriteQuotes
    rw [if_neg (by omega)]
    unfold WriteQuotes_anchor
    rw [if_pos hbc]
    dsimp only
    rw [if_neg (by omega)]
  · have h := QuoteSample_roundtrip maxDepth
      (Int.emod (if (WriteSeconds s ts).1 then (WriteSeconds s ts).2.m_last_usec
        else (WriteSeconds s ts).2.m_last_usec - s.m_last_usec) 4294967296).toNat
      bidCnt askCnt (WriteSeconds s ts).2.m_last_quote_px
      (NormalizePx (bids (bidCnt - 1)).1) (bids (bidCnt - 1)).2
      (WriteQuotes_tail bids asks bidCnt askCnt)
      hbc hbd had hd15 (WriteQuotes_tail_length bids asks bidCnt askCnt hbc)
    rw [WriteQuotes_traversal bids asks bidCnt askCnt hbc] at h
    exact h

/-- C6 counterexample.  On a fresh file, a `WriteQuotes` call with zero bids
and the two asks `[(100, 10), (105, 20)]` succeeds, but decoding the
appended quote record (the 9 bytes after the 3-byte `SecondsSample`) yields
the levels `[(105, 20), (0, 0)]` -- the last ask as anchor followed by the
out-of-range storage default -- not the written book `[(100, 10), (105, 20)]`
that the claimed round-trip requires. -/
theorem C6_counterexample_ask_only_book_not_restored :
    (BaseSecDBFileIO_WriteQuotes 5 ⟨[], 0, 0, 0, 0, none, none, ⟨[]⟩⟩ 3600000000
        (fun _ => (0, 0)) 0
        (fun i => if i = 0 then (100, 10) else if i = 1 then (105, 20) else (0, 0))
        2).2 = none ∧
    (BaseSecDBFileIO_WriteQuotes 5 ⟨[], 0, 0, 0, 0, none, none, ⟨[]⟩⟩ 3600000000
        (fun _ => (0, 0)) 0
        (fun i => if i = 0 then (100, 10) else if i = 1 then (105, 20) else (0, 0))
        2).1.m_file =
      SecondsSample_Write 3600 ++ [1, 0, 32, 233, 0, 20, 151, 127, 0] ∧
    QuoteSample_Read 5 [1, 0, 32, 233, 0, 20, 151, 127, 0] 9 false 0 =
      .ok 0 0 2 [(105, 20), (0, 0)] 105 9 ∧
    ([((105 : Int), (20 : Int)), (0, 0)] : List (Int × Int)) ≠
      [(100, 10), (105, 20)] := by
  decide

theorem C6_quote_roundtrip_witness :
    (0 : Int) ≤ 3600000000 ∧
    (BaseSecDBFileIO_WriteQuotes 5 ⟨[], 0, 0, 0, 0, none, none, ⟨[]⟩⟩ 3600000000
        (fun i => if i = 0 then ((100 : Int), (10 : Int)) else (0, 0)) 1
        (fun _ => (0, 0)) 0).2 = none :=
  ⟨by decide,
    (C6_quote_roundtrip 5 ⟨[], 0, 0, 0, 0, none, none, ⟨[]⟩⟩ 3600000000
      (fun i => if i = 0 then (100, 10) else (0, 0)) (fun _ => (0, 0)) 1 0
      (by decide) (by decide) (by decide) (by decide) (by decide)).1⟩
